import Mathlib

set_option maxHeartbeats 1000000

namespace Scaffold

/-!
Shallow embedding of the runtime core of zotero-plugin-scaffold:
the RDP messaging client (`parseMessage`, `MessagingClient`), the tester
HTTP bridge (`Test.startHttpServer` / `Test.onHttpDataUpdated` and the
injected mocha reporter), and the watch loop (`Serve.watch` / `Serve.onChange`).

Byte buffers (Node `Buffer`) are modelled as `List Nat` (byte values).
The source calls `data.toString()` and mixes character indices with byte
indices; the model identifies the two, which is exact whenever every byte
before the first `:` separator is ASCII (always the case for the length
prefix region the code slices on).  `JSON.parse` and `JSON.stringify` are
platform builtins, not repository code: payload decoding is therefore a
parameter `jdecode : List Nat -> Option Msg` of the model (`none` models a
`JSON.parse` throw).
-/

/-- A decoded RDP message: `from?`, `type?` and an `error` marker.
JavaScript truthiness of `message.from` is modelled by treating `none`
and `some ""` as falsy; truthiness of `message.error` is a `Bool`. -/
structure Msg where
  fromActor : Option String := none
  mtype : Option String := none
  error : Bool := false
  deriving Repr, DecidableEq

/-- Result record of `parseMessage` in the source:
`remainingData`, optional `parsedMessage`, optional `error`, optional `fatal`. -/
structure ParseResult where
  remainingData : List Nat
  parsedMessage : Option Msg := none
  error : Option String := none
  fatal : Option Bool := none
  deriving Repr, DecidableEq

/-- Index of the first `:` (byte 58) in the buffer, `dataString.indexOf(":")`. -/
def colonIdx : List Nat → Option Nat
  | [] => none
  | b :: rest => if b = 58 then some 0 else (colonIdx rest).map (· + 1)

/-- ASCII whitespace bytes skipped by `Number.parseInt`. -/
def isWsByte (b : Nat) : Bool := b = 32 || b = 9 || b = 10 || b = 11 || b = 12 || b = 13

/-- ASCII decimal digit bytes. -/
def isDigitByte (b : Nat) : Bool := 48 ≤ b && b ≤ 57

/-- Value of a list of ASCII digit bytes, most significant first. -/
def digitsVal (ds : List Nat) : Nat := ds.foldl (fun a b => a * 10 + (b - 48)) 0

/-- Model of `Number.parseInt(s, 10)`: skip ASCII whitespace, take an optional
sign, then the longest run of decimal digits; `none` models `NaN` (no digits). -/
def parseIntBase10 (s : List Nat) : Option Int :=
  let s1 := s.dropWhile isWsByte
  let core : Bool × List Nat :=
    match s1 with
    | [] => (false, [])
    | c :: r => if c = 43 then (false, r) else if c = 45 then (true, r) else (false, c :: r)
  let ds := core.2.takeWhile isDigitByte
  if ds.isEmpty then none
  else some (if core.1 then -(digitsVal ds : Int) else (digitsVal ds : Int))

/-- Node `Buffer.slice` index normalization: a negative index counts from the
end of the buffer, and indices are clamped to the buffer length. -/
def sliceIdx (len : Nat) (i : Int) : Nat :=
  if i < 0 then ((len : Int) + i).toNat else min i.toNat len

/-- Node `Buffer.slice(start, stop)`. -/
def bufSlice (data : List Nat) (start stop : Int) : List Nat :=
  (data.take (sliceIdx data.length stop)).drop (sliceIdx data.length start)

/-- Embeds `parseMessage` from the messaging client: length-prefixed frame
parsing with the severity split of the source (unparsable length prefix is
fatal, a payload that fails to decode is non-fatal). -/
def parseMessage (jdecode : List Nat → Option Msg) (data : List Nat) : ParseResult :=
  let separatorIndex : Int := match colonIdx data with
    | none => -1
    | some i => (i : Int)
  if separatorIndex < 1 then { remainingData := data }
  else
    match parseIntBase10 (data.take separatorIndex.toNat) with
    | none =>
      { remainingData := data
        error := some "Error parsing RDP message length"
        fatal := some true }
    | some messageLength =>
      if (data.length : Int) - (separatorIndex + 1) < messageLength then
        { remainingData := data }
      else
        let messageContent := bufSlice data (separatorIndex + 1) (separatorIndex + 1 + messageLength)
        let remaining := bufSlice data (separatorIndex + 1 + messageLength) (data.length : Int)
        match jdecode messageContent with
        | some m => { remainingData := remaining, parsedMessage := some m }
        | none =>
          { remainingData := remaining
            error := some "JSON parse error"
            fatal := some false }

/-!
## The messaging client state machine

Deferreds (promise resolve/reject pairs) are identified by allocation
numbers; id `0` is the deferred of the `connect()` promise, request
deferreds are allocated from `nextId` starting at `1`.  A ghost `trace`
records, in program order, every `request()` issue, every
`connection.write` of a request, and every resolve/reject of a deferred;
these are exactly the observable effects the spec talks about.
-/

/-- Ghost trace events: a request issued (pushed to the pending queue),
a request written to the socket, a deferred settled (resolved when `ok`,
rejected with `reason` otherwise). -/
inductive TraceEv where
  | issue (actor : String) (d : Nat)
  | write (actor : String) (d : Nat)
  | settle (d : Nat) (ok : Bool) (reason : String)
  deriving Repr, DecidableEq

/-- Events emitted on the client event emitter. -/
inductive EmitEv where
  | errorEv (s : String)
  | rdpError (m : Msg)
  | endEv
  | timeoutEv
  deriving Repr, DecidableEq

/-- An outbound RDP request object (`to`, `type`). -/
structure Request where
  toActor : Option String := none
  rtype : Option String := none
  deriving Repr, DecidableEq

/-- State of a `MessagingClient`.  `activeRequests` is the `Map` from actor id
to the deferred of the single in-flight request; `pendingRequests` is the
queue of not-yet-written requests.  `hasConnection` models
`this.connection !== undefined` (the source never clears the field),
`listenersRemoved` models `connection.removeAllListeners()`, `ended` models
`connection.end()`.  `crashed` marks executions the source would abort with
an uncaught exception (unreachable from a connected client).  `decoded` is
the ghost list of messages handed to `handleMessage`. -/
structure ClientState where
  incomingData : List Nat := []
  pendingRequests : List (Request × Nat) := []
  activeRequests : List (String × Nat) := []
  hasConnection : Bool := false
  listenersRemoved : Bool := false
  ended : Bool := false
  crashed : Bool := false
  emitted : List EmitEv := []
  decoded : List Msg := []
  trace : List TraceEv := []
  nextId : Nat := 1
  deriving Repr, DecidableEq

/-- `Map.has` on the association-list model of `activeRequests`. -/
def mapHas (m : List (String × Nat)) (k : String) : Bool := m.any (fun p => p.1 = k)

/-- `Map.get` (returns `undefined` as `none`). -/
def mapGet (m : List (String × Nat)) (k : String) : Option Nat :=
  (m.find? (fun p => p.1 = k)).map (·.2)

/-- `Map.delete`. With nodup keys this removes the unique binding of `k`. -/
def mapDelete (m : List (String × Nat)) (k : String) : List (String × Nat) :=
  m.filter (fun p => ¬ p.1 = k)

/-- Record a resolve (`ok = true`) or reject of deferred `d`. -/
def settleEv (s : ClientState) (d : Nat) (ok : Bool) (reason : String) : ClientState :=
  { s with trace := s.trace ++ [.settle d ok reason] }

/-- `this.emit(...)`. -/
def emitEv (s : ClientState) (e : EmitEv) : ClientState :=
  { s with emitted := s.emitted ++ [e] }

/-- `connection.write(messageString)`: the write of request `d` for `actor`
appears on the wire (socket writes are modelled as total; Node stream write
errors surface asynchronously, not as synchronous throws). -/
def writeReq (s : ClientState) (actor : String) (d : Nat) : ClientState :=
  { s with trace := s.trace ++ [.write actor d] }

/-- `expectReply(targetActor, deferred)`: throws if the actor already has an
active request (modelled as `crashed`; every call site checks first), else
adds the binding.  `Map.set` of a fresh key appends. -/
def expectReply (s : ClientState) (targetActor : String) (d : Nat) : ClientState :=
  if mapHas s.activeRequests targetActor then { s with crashed := true }
  else { s with activeRequests := s.activeRequests ++ [(targetActor, d)] }

/-- The body of `flushPendingRequests`: `Array.filter` over the pending queue
with the side effects of the source callback.  Returns the kept entries, the
updated state, and whether the callback threw (`!this.connection`), which in
the source aborts the filter so that `this.pendingRequests` is never
reassigned. -/
def flushAux : ClientState → List (Request × Nat) → List (Request × Nat) × ClientState × Bool
  | s, [] => ([], s, false)
  | s, (req, d) :: rest =>
    let a := req.toActor.getD ""
    if mapHas s.activeRequests a then
      let r := flushAux s rest
      ((req, d) :: r.1, r.2)
    else if ¬ s.hasConnection then
      ([], { s with crashed := true }, true)
    else
      let s1 := expectReply (writeReq s a d) a d
      flushAux s1 rest

/-- `flushPendingRequests()`.  The `Bool` reports whether the filter callback
threw (propagated to the caller in the source). -/
def flushPendingRequests (s : ClientState) : ClientState × Bool :=
  let r := flushAux s s.pendingRequests
  if r.2.2 then ({ r.2.1 with pendingRequests := s.pendingRequests }, true)
  else ({ r.2.1 with pendingRequests := r.1 }, false)

/-- Argument of `request()`: a bare request type string (addressed to the
root actor) or a full request object. -/
inductive RequestProps where
  | ofString (t : String)
  | ofObject (r : Request)
  deriving Repr, DecidableEq

/-- `request(requestProps)`.  Returns the deferred id of the new request, or
`none` when the source throws synchronously (`!request.to`, JavaScript
truthiness, so a missing or empty target).  A throw from the flush filter is
caught by the promise executor and rejects the new deferred. -/
def request (s : ClientState) (props : RequestProps) : ClientState × Option Nat :=
  let req : Request := match props with
    | .ofString t => { toActor := some "root", rtype := some t }
    | .ofObject r => r
  if req.toActor.getD "" = "" then (s, none)
  else
    let d := s.nextId
    let s1 := { s with
      nextId := d + 1
      pendingRequests := s.pendingRequests ++ [(req, d)]
      trace := s.trace ++ [.issue (req.toActor.getD "") d] }
    let r := flushPendingRequests s1
    if r.2 then (settleEv r.1 d false "RDP connection closed", some d)
    else (r.1, some d)

/-- `rejectAllRequests(error)`: reject every active deferred, clear the map,
reject every pending deferred, clear the queue. -/
def rejectAllRequests (s : ClientState) (reason : String) : ClientState :=
  let s1 := s.activeRequests.foldl (fun t p => settleEv t p.2 false reason) s
  let s2 := { s1 with activeRequests := [] }
  let s3 := s2.pendingRequests.foldl (fun t p => settleEv t p.2 false reason) s2
  { s3 with pendingRequests := [] }

/-- `disconnect()`: no-op without a connection; otherwise remove the socket
listeners, end the socket, and reject all outstanding requests.  The source
never clears `this.connection`. -/
def disconnect (s : ClientState) : ClientState :=
  if ¬ s.hasConnection then s
  else rejectAllRequests { s with listenersRemoved := true, ended := true } "RDP connection closed"

/-- `handleMessage(message)`: a message without a truthy `from` is emitted as
an out-of-band protocol error; a matching in-flight request is settled
(rejected when the message carries an error marker) and the queue flushed;
otherwise an unexpected-message error is emitted. -/
def handleMessage (s : ClientState) (message : Msg) : ClientState :=
  if message.fromActor.getD "" = "" then emitEv s (.rdpError message)
  else
    let a := message.fromActor.getD ""
    match mapGet s.activeRequests a with
    | some d =>
      let s1 := { s with activeRequests := mapDelete s.activeRequests a }
      let s2 := if message.error then settleEv s1 d false "RDP error reply"
                else settleEv s1 d true ""
      (flushPendingRequests s2).1
    | none => emitEv s (.errorEv "Received unexpected message")

/-- `readMessage()`: parse one frame from the buffer, advance the buffer,
report errors (disconnecting on fatal ones) and deliver parsed messages.
Returns the continue flag of the source (`!fatal` on error, `true` on a
message, `false` when no full frame is available). -/
def readMessage (jdecode : List Nat → Option Msg) (s : ClientState) : ClientState × Bool :=
  let r := parseMessage jdecode s.incomingData
  let s1 := { s with incomingData := r.remainingData }
  match r.error with
  | some e =>
    let s2 := emitEv s1 (.errorEv ("Error parsing RDP packet: " ++ e))
    if r.fatal.getD false then (disconnect s2, false) else (s2, true)
  | none =>
    match r.parsedMessage with
    | none => (s1, false)
    | some m => (handleMessage { s1 with decoded := s1.decoded ++ [m] } m, true)

/-- The `while (this.readMessage());` loop, fueled.  The fuel used by `onData`
bounds every run in which each continuing iteration consumes at least one
byte of the buffer (all runs reachable in the claims; the source loops
forever on the remaining, degenerate inputs). -/
def readLoop (jdecode : List Nat → Option Msg) : Nat → ClientState → ClientState
  | 0, s => s
  | n + 1, s =>
    let r := readMessage jdecode s
    if r.2 then readLoop jdecode n r.1 else r.1

/-- `onData(data)`: append the fill to the buffer and drain it. -/
def onData (jdecode : List Nat → Option Msg) (s : ClientState) (fill : List Nat) : ClientState :=
  let s1 := { s with incomingData := s.incomingData ++ fill }
  readLoop jdecode (s1.incomingData.length + 1) s1

/-- The client state right after `connect(port)` set up the socket: the
connection field is set, the socket listeners are attached, and
`expectReply("root", { resolve, reject })` has registered the connect
deferred (id `0`) as the in-flight request of the root actor. -/
def connInit : ClientState :=
  expectReply { hasConnection := true } "root" 0

/-- Socket events delivered to the listeners `connect()` attached. -/
inductive SockEv where
  | connectEv
  | dataEv (fill : List Nat)
  | errorEv (reason : String)
  | endEv
  | timeoutEv
  deriving Repr, DecidableEq

/-- Delivery of one socket event.  After `removeAllListeners()` nothing is
delivered.  The `connect` callback of `net.createConnection` resolves the
`connect()` promise (deferred `0`); the `error` listener rejects it. -/
def stepEv (jdecode : List Nat → Option Msg) (s : ClientState) : SockEv → ClientState
  | .connectEv => if s.listenersRemoved then s else settleEv s 0 true ""
  | .dataEv fill => if s.listenersRemoved then s else onData jdecode s fill
  | .errorEv r => if s.listenersRemoved then s else settleEv s 0 false r
  | .endEv => if s.listenersRemoved then s else emitEv s .endEv
  | .timeoutEv => if s.listenersRemoved then s else emitEv s .timeoutEv

/-- One step of a connected client: a socket event, a `request()` call, or a
`disconnect()` call. -/
inductive Step (jdecode : List Nat → Option Msg) : ClientState → ClientState → Prop where
  | sock (s : ClientState) (e : SockEv) : Step jdecode s (stepEv jdecode s e)
  | req (s : ClientState) (p : RequestProps) : Step jdecode s (request s p).1
  | disc (s : ClientState) : Step jdecode s (disconnect s)

/-- States reachable from a freshly connected client. -/
inductive Reachable (jdecode : List Nat → Option Msg) : ClientState → Prop where
  | init : Reachable jdecode connInit
  | step {s s' : ClientState} : Reachable jdecode s → Step jdecode s s' → Reachable jdecode s'

/-!
## Frame encoding and trace predicates
-/

/-- Decimal digit bytes of `n`, most significant first (fueled helper). -/
def natDigitsAux : Nat → Nat → List Nat
  | 0, _ => []
  | f + 1, n => if n < 10 then [48 + n] else natDigitsAux f (n / 10) ++ [48 + n % 10]

/-- ASCII decimal representation of a natural number. -/
def decimalRepr (n : Nat) : List Nat := natDigitsAux (n + 1) n

/-- A wire frame: decimal byte length, `:`, payload — the exact shape
`flushPendingRequests` writes and `parseMessage` consumes. -/
def encodeFrame (p : List Nat) : List Nat := decimalRepr p.length ++ 58 :: p

/-- A well-formed frame stream: the concatenation of frames. -/
def encodeFrames (ps : List (List Nat)) : List Nat := (ps.map encodeFrame).flatten

/-- `b` is a strict prefix of `f`. -/
def StrictPre (b f : List Nat) : Prop := ∃ t, t ≠ [] ∧ b ++ t = f

/-- The buffer `b` holds no complete frame of the stream `qs`: either the
stream is exhausted, or `b` stops strictly inside the stream's first frame. -/
def PartialBuf (b : List Nat) (qs : List (List Nat)) : Prop :=
  (qs = [] ∧ b = []) ∨ (∃ q qs2, qs = q :: qs2 ∧ StrictPre b (encodeFrame q))

/-- Number of `write` events of deferred `d` in a trace. -/
def writeCnt (T : List TraceEv) (d : Nat) : Nat :=
  T.countP (fun e => match e with | .write _ d2 => d2 = d | _ => false)

/-- Number of `settle` (resolve or reject) events of deferred `d` in a trace. -/
def settleCnt (T : List TraceEv) (d : Nat) : Nat :=
  T.countP (fun e => match e with | .settle d2 _ _ => d2 = d | _ => false)

/-- Request `d` was issued to `a` (a `request()` call pushed it). -/
def issuedTo (T : List TraceEv) (a : String) (d : Nat) : Prop := TraceEv.issue a d ∈ T

/-- Request `d` was written to the socket addressed to `a`. -/
def writtenTo (T : List TraceEv) (a : String) (d : Nat) : Prop := TraceEv.write a d ∈ T

/-- Deferred `d` was settled (resolved or rejected) somewhere in the trace. -/
def settledIn (T : List TraceEv) (d : Nat) : Prop := ∃ ok r, TraceEv.settle d ok r ∈ T

/-- The dids of the `issue` events of a trace, in trace order. -/
def issueDids (T : List TraceEv) : List Nat :=
  T.filterMap (fun e => match e with | .issue _ d => some d | _ => none)

/-- The per-actor wire-ordering property of the claim: whenever a request
`d2` is written to actor `a`, every same-actor request `d1` issued earlier
(dids are allocated in issue order, so earlier means `d1 < d2`) has already
been settled — its reply resolved or rejected — strictly before that write,
and no write of `d1` occurs at or after the write of `d2`. -/
def OrderOk (T : List TraceEv) : Prop :=
  ∀ T1 a d2 T2, T = T1 ++ TraceEv.write a d2 :: T2 →
    ∀ d1, d1 < d2 → issuedTo T1 a d1 →
      settledIn T1 d1 ∧ (∀ a2, TraceEv.write a2 d1 ∉ T2)

/-- State invariant of a connected `MessagingClient`, tying the queue
`pend`, the in-flight map `act`, the ghost trace `T`, the deferred
allocator `n` and the connection flags together. -/
structure InvOn (pend : List (Request × Nat)) (act : List (String × Nat))
    (T : List TraceEv) (n : Nat) (conn crashed : Bool) : Prop where
  connTrue : conn = true
  noCrash : crashed = false
  nextPos : 1 ≤ n
  activeNodup : (act.map Prod.fst).Nodup
  activeDidsNodup : (act.map Prod.snd).Nodup
  pendIncr : (pend.map Prod.snd).Pairwise (· < ·)
  pendLt : ∀ p ∈ pend, p.2 < n
  activeLt : ∀ q ∈ act, q.2 < n
  pendIssued : ∀ p ∈ pend,
    p.1.toActor.getD "" ≠ "" ∧ issuedTo T (p.1.toActor.getD "") p.2
  pendUnwritten : ∀ p ∈ pend, writeCnt T p.2 = 0
  pendUnsettled : ∀ p ∈ pend, settleCnt T p.2 = 0
  pendActiveDisj : ∀ p ∈ pend, ∀ q ∈ act, p.2 ≠ q.2
  activeRoot : ∀ q ∈ act, q.2 = 0 → q.1 = "root"
  activeIssued : ∀ q ∈ act,
    (q.1 = "root" ∧ q.2 = 0) ∨ (issuedTo T q.1 q.2 ∧ writtenTo T q.1 q.2)
  activeUnsettled : ∀ q ∈ act, q.2 = 0 ∨ settleCnt T q.2 = 0
  issueBounds : ∀ a d, issuedTo T a d → 1 ≤ d ∧ d < n
  issueFun : ∀ a a2 d, issuedTo T a d → issuedTo T a2 d → a = a2
  issueMono : (issueDids T).Pairwise (· < ·)
  writeIssued : ∀ a d, writtenTo T a d → issuedTo T a d
  writeOnce : ∀ d, writeCnt T d ≤ 1
  settleOnce : ∀ d, 1 ≤ d → settleCnt T d ≤ 1
  settleIssued : ∀ d, 1 ≤ d → 1 ≤ settleCnt T d → ∃ a, issuedTo T a d
  trich : ∀ a d, issuedTo T a d →
    (∃ p ∈ pend, p.2 = d) ∨ (a, d) ∈ act ∨ settleCnt T d = 1
  ordOk : OrderOk T

/-- The client invariant, as `InvOn` of the relevant state components. -/
def Inv (s : ClientState) : Prop :=
  InvOn s.pendingRequests s.activeRequests s.trace s.nextId s.hasConnection s.crashed

/-!
## The tester result bridge (src/core/tester.ts)

`JSON.parse` results are modelled structurally: `none` stands for a body on
which `JSON.parse` threw; a parsed body has a `type` string and an optional
`data` object whose `str` field may be absent.  Logging is a trace of
strings; `process.exit` records the exit code (and the serve loop stops
delivering events to a dead process).
-/

/-- The `data` object of a posted event; only the fields the handler reads
are modelled (`str` may be missing even when `data` is present). -/
structure JsData where
  title : Option String := none
  str : Option String := none
  deriving Repr, DecidableEq

/-- A parsed `POST /update` body: `{ type, data? }`. -/
structure JsonBody where
  jtype : String
  data : Option JsData := none
  deriving Repr, DecidableEq

/-- Tester configuration bits the handler reads. -/
structure TestCfg where
  abortOnFail : Bool := false
  exitOnFinish : Bool := false
  deriving Repr, DecidableEq

/-- Orchestrator-side state of the result bridge. -/
structure TesterSt where
  logTrace : List String := []
  serverClosed : Bool := false
  exited : Option Nat := none
  deriving Repr, DecidableEq

/-- Append a log line. -/
def pushLog (st : TesterSt) (line : String) : TesterSt :=
  { st with logTrace := st.logTrace ++ [line] }

/-- JavaScript truthiness of an optional string (`undefined` and `""` falsy). -/
def strTruthy : Option String → Bool
  | none => false
  | some s => s ≠ ""

/-- `Test.exit(code?)`: closes the communicator server, kills the runner and
exits the process (`1` for a failed run, otherwise `0`). -/
def testExit (st : TesterSt) (code : Option Nat) : TesterSt :=
  let st1 := { st with serverClosed := true }
  match code with
  | some 1 => { pushLog st1 "error: Test run failed" with exited := some 1 }
  | _ => { pushLog st1 "success: Test run completed successfully" with exited := some 0 }

/-- The tail of `Test.onHttpDataUpdated` after `str` has been computed:
the two if/else chains of the source. -/
def onHttpTail (cfg : TestCfg) (st : TesterSt) (body : JsonBody) (str : Option String) : TesterSt :=
  let st1 :=
    if body.jtype = "start" then pushLog st "newline"
    else if body.jtype = "suite" ∧ strTruthy str then pushLog st ("tip: " ++ str.getD "")
    else st
  if body.jtype = "pass" ∧ strTruthy str then pushLog st1 ("log: " ++ str.getD "")
  else if body.jtype = "fail" then
    let st2 := pushLog st1 ("error: " ++ str.getD "")
    if cfg.abortOnFail then
      let st3 := pushLog st2 "error: Aborting test run due to failure"
      if cfg.exitOnFinish then testExit st3 (some 1) else st3
    else st2
  else if body.jtype = "suite end" then pushLog st1 "newline"
  else if body.jtype = "end" then
    let st2 := pushLog st1 "success: Test run completed"
    let st3 := { st2 with serverClosed := true }
    if cfg.exitOnFinish then testExit st3 none else st3
  else st1

/-- `Test.onHttpDataUpdated(body)`.  `body.data?.str.replaceAll("\n", "")`
throws a `TypeError` when `data` is present without `str` (optional chaining
only short-circuits on a missing `data`); the throw is modelled as
`Except.error`.  No state is mutated before the throw (the debug branch is
guarded by the truthiness of the same field). -/
def onHttpDataUpdated (cfg : TestCfg) (st : TesterSt) (body : JsonBody) : Except Unit TesterSt :=
  let st1 :=
    if body.jtype = "debug" ∧ strTruthy (body.data.bind (·.str)) then
      ((body.data.bind (·.str)).getD "").splitOn "\n" |>.foldl (fun t l => pushLog t l) st
    else st
  match body.data with
  | some d =>
    match d.str with
    | none => .error ()
    | some s0 => .ok (onHttpTail cfg st1 body (some (s0.replace "\n" "")))
  | none => .ok (onHttpTail cfg st1 body none)

/-- An HTTP response of the communicator server (status and body text). -/
structure HttpResp where
  status : Nat
  body : String
  deriving Repr, DecidableEq

/-- The request handler installed by `Test.startHttpServer`: liveness text on
`GET /`, the update endpoint on `POST /update` (400 when `JSON.parse` or
the update handler throws), 404 otherwise. -/
def handleRequest (cfg : TestCfg) (st : TesterSt) (method url : String)
    (parsedBody : Option JsonBody) : TesterSt × HttpResp :=
  if method = "GET" ∧ url = "/" then
    (st, { status := 200, body := "Zotero Plugin Test Server is running" })
  else if method = "POST" ∧ url = "/update" then
    match parsedBody with
    | none => (st, { status := 400, body := "Invalid JSON" })
    | some b =>
      match onHttpDataUpdated cfg st b with
      | .ok st2 => (st2, { status := 200, body := "Results received successfully" })
      | .error _ => (st, { status := 400, body := "Invalid JSON" })
  else (st, { status := 404, body := "Not Found" })

/-- An incoming HTTP request (method, url, parsed body). -/
structure HttpReq where
  method : String
  url : String
  parsedBody : Option JsonBody := none
  deriving Repr, DecidableEq

/-- Serve a list of requests in order.  A request reaching a process that
already exited is not served (the process is gone). -/
def serveAll (cfg : TestCfg) (st : TesterSt) : List HttpReq → TesterSt × List HttpResp
  | [] => (st, [])
  | r :: reqs =>
    if st.exited.isSome then (st, [])
    else
      let o := handleRequest cfg st r.method r.url r.parsedBody
      let rest := serveAll cfg o.1 reqs
      (rest.1, o.2 :: rest.2)

/-!
## The injected mocha reporter (generated by `Test.bundleTests`)

The reporter string generated into the test page is repository source: it
holds the `passed`/`failed`/`aborted` counters, incremented on `pass`/`fail`
events, posts them with the `end` event and quits the target with code 0
when `exitOnFinish` is configured.
-/

/-- Mocha runner events the generated reporter subscribes to. -/
inductive MochaEv where
  | start
  | suite
  | suiteEnd
  | pending
  | pass
  | fail
  | endEv
  deriving Repr, DecidableEq

/-- State of the generated reporter. -/
structure ReporterSt where
  passed : Nat := 0
  failed : Nat := 0
  aborted : Bool := false
  sentEnd : Option (Nat × Nat × Bool) := none
  quitCode : Option Nat := none
  deriving Repr, DecidableEq

/-- One reporter event handler: `pass`/`fail` increment the counters, `fail`
aborts the runner under abort-on-fail, `end` posts the aggregate and quits
with code 0 under exit-on-finish. -/
def reporterStep (abortOnFail exitOnFinish : Bool) (st : ReporterSt) : MochaEv → ReporterSt
  | .pass => { st with passed := st.passed + 1 }
  | .fail =>
    let st1 := { st with failed := st.failed + 1 }
    if abortOnFail then { st1 with aborted := true } else st1
  | .endEv =>
    let st1 := { st with sentEnd := some (st.passed, st.failed, st.aborted) }
    if exitOnFinish then { st1 with quitCode := some 0 } else st1
  | _ => st

/-- Run the reporter over a sequence of runner events. -/
def reporterRun (abortOnFail exitOnFinish : Bool) (evs : List MochaEv) : ReporterSt :=
  evs.foldl (reporterStep abortOnFail exitOnFinish) {}

/-!
## The watch loop (src/core/server/index.ts)
-/

/-- The collaborators a change cycle calls: the `serve:onChanged` hook, the
script-only esbuild step, the full build pipeline, and the runner reload
(with its `serve:onReloaded` hook).  Each may fail. -/
structure WatchCollab where
  hookChanged : String → Except String Unit
  esbuildStep : String → Except String Unit
  buildRun : String → Except String Unit
  reloadStep : String → Except String Unit

/-- `Serve.onChange(path)`: hook, then the cheap script path for `.ts`/`.tsx`
files or the full pipeline otherwise, then reload. -/
def onChange (c : WatchCollab) (path : String) : Except String Unit := do
  c.hookChanged path
  if path.endsWith ".ts" ∨ path.endsWith ".tsx" then c.esbuildStep path
  else c.buildRun path
  c.reloadStep path

/-- State of the watch loop: one entry per fired change cycle (the error the
cycle ended with, if any) and the log of errors the boundary caught. -/
structure WatchSt where
  cycles : List (String × Option String) := []
  loggedErrors : List String := []
  deriving Repr, DecidableEq

/-- The debounced change callback of `Serve.watch`: runs a cycle and catches
every failure at the boundary (`.catch((err) => this.logger.error(err))`),
so nothing propagates into the watcher. -/
def onChangeDebounced (c : WatchCollab) (st : WatchSt) (path : String) : WatchSt :=
  match onChange c path with
  | .ok _ => { st with cycles := st.cycles ++ [(path, none)] }
  | .error e =>
    { st with
      cycles := st.cycles ++ [(path, some e)]
      loggedErrors := st.loggedErrors ++ [e] }

/-- The watch process: every (debounced) change event fires one cycle. -/
def watchRun (c : WatchCollab) (paths : List String) : WatchSt :=
  paths.foldl (onChangeDebounced c) {}

/-!
# Lemmas about the framer
-/

theorem parseMessage_stall (jd : List Nat → Option Msg) (t : List Nat) :
    parseMessage jd (58 :: t) = { remainingData := 58 :: t } := by
  simp [parseMessage, colonIdx]

theorem readMessage_stall (jd : List Nat → Option Msg) (s : ClientState) (t : List Nat)
    (h : s.incomingData = 58 :: t) : readMessage jd s = (s, false) := by
  have hp : parseMessage jd s.incomingData = { remainingData := s.incomingData } := by
    rw [h]; exact parseMessage_stall jd t
  simp [readMessage, hp]

theorem readLoop_stall (jd : List Nat → Option Msg) (s : ClientState) (t : List Nat)
    (h : s.incomingData = 58 :: t) (fuel : Nat) : readLoop jd fuel s = s := by
  cases fuel with
  | zero => rfl
  | succ n => simp [readLoop, readMessage_stall jd s t h]

theorem onData_stall (jd : List Nat → Option Msg) (s : ClientState) (t : List Nat)
    (h : s.incomingData = 58 :: t) (fill : List Nat) :
    onData jd s fill = { s with incomingData := s.incomingData ++ fill } := by
  unfold onData
  exact readLoop_stall jd _ (t ++ fill) (by simp [h]) _

theorem colonIdx_no_colon (ds : List Nat) (h : ∀ b ∈ ds, b ≠ 58) : colonIdx ds = none := by
  induction ds with
  | nil => rfl
  | cons b t ih =>
    simp only [colonIdx, if_neg (h b (by simp))]
    rw [ih (fun x hx => h x (by simp [hx]))]
    rfl

theorem colonIdx_append (ds tail : List Nat) (h : ∀ b ∈ ds, b ≠ 58) :
    colonIdx (ds ++ 58 :: tail) = some ds.length := by
  induction ds with
  | nil => simp [colonIdx]
  | cons b t ih =>
    have hb : ¬ b = 58 := h b (by simp)
    have iht := ih (fun x hx => h x (by simp [hx]))
    simp [colonIdx, hb, iht]

theorem take_min_length (l : List Nat) (n : Nat) : l.take (min n l.length) = l.take n := by
  rcases le_total n l.length with h | h
  · rw [min_eq_left h]
  · rw [min_eq_right h, List.take_length, List.take_of_length_le h]

theorem drop_clamp (l : List Nat) (a b : Nat) :
    (l.take b).drop (min a l.length) = (l.take b).drop a := by
  rcases le_total a l.length with h | h
  · rw [min_eq_left h]
  · rw [min_eq_right h, List.drop_eq_nil_of_le, List.drop_eq_nil_of_le]
    · exact le_trans (by simp) h
    · simp

theorem bufSlice_ofNat (l : List Nat) (a b : Nat) :
    bufSlice l (a : Int) (b : Int) = (l.take b).drop a := by
  unfold bufSlice sliceIdx
  have ha : ¬((a : Int) < 0) := by exact_mod_cast Int.natCast_nonneg a |>.not_lt
  have hb : ¬((b : Int) < 0) := by exact_mod_cast Int.natCast_nonneg b |>.not_lt
  rw [if_neg ha, if_neg hb, Int.toNat_natCast, Int.toNat_natCast]
  rw [take_min_length, drop_clamp]

theorem digitsVal_concat (xs : List Nat) (y : Nat) :
    digitsVal (xs ++ [y]) = digitsVal xs * 10 + (y - 48) := by
  simp [digitsVal]

theorem natDigitsAux_digits (f : Nat) :
    ∀ n b, b ∈ natDigitsAux f n → 48 ≤ b ∧ b ≤ 57 := by
  induction f with
  | zero => intro n b hb; simp [natDigitsAux] at hb
  | succ f ih =>
    intro n b hb
    by_cases h : n < 10
    · simp [natDigitsAux, h] at hb; omega
    · simp [natDigitsAux, h] at hb
      rcases hb with hb | hb
      · exact ih _ _ hb
      · have := Nat.mod_lt n (show 0 < 10 by norm_num)
        omega

theorem natDigitsAux_ne_nil (f n : Nat) (h : n < f) : natDigitsAux f n ≠ [] := by
  cases f with
  | zero => omega
  | succ f => by_cases h10 : n < 10 <;> simp [natDigitsAux, h10]

theorem natDigitsAux_val (f : Nat) : ∀ n, n < f → digitsVal (natDigitsAux f n) = n := by
  induction f with
  | zero => intro n h; omega
  | succ f ih =>
    intro n h
    by_cases h10 : n < 10
    · simp [natDigitsAux, h10, digitsVal]
    · have h1 : n / 10 < n := Nat.div_lt_self (by omega) (by norm_num)
      have hdiv : n / 10 < f := by omega
      rw [show natDigitsAux (f + 1) n = natDigitsAux f (n / 10) ++ [48 + n % 10] by
        simp [natDigitsAux, h10]]
      rw [digitsVal_concat, ih _ hdiv]
      omega

theorem decimalRepr_digits (n : Nat) : ∀ b ∈ decimalRepr n, 48 ≤ b ∧ b ≤ 57 :=
  fun b hb => natDigitsAux_digits _ _ b hb

theorem decimalRepr_ne_nil (n : Nat) : decimalRepr n ≠ [] :=
  natDigitsAux_ne_nil _ _ (Nat.lt_succ_self n)

theorem decimalRepr_no_colon (n : Nat) : ∀ b ∈ decimalRepr n, b ≠ 58 := by
  intro b hb
  have := decimalRepr_digits n b hb
  omega

theorem decimalRepr_val (n : Nat) : digitsVal (decimalRepr n) = n :=
  natDigitsAux_val _ _ (Nat.lt_succ_self n)

theorem parseIntBase10_digits (ds : List Nat) (hne : ds ≠ [])
    (hd : ∀ b ∈ ds, 48 ≤ b ∧ b ≤ 57) :
    parseIntBase10 ds = some (digitsVal ds : Int) := by
  obtain ⟨b, t, rfl⟩ := List.exists_cons_of_ne_nil hne
  have hb := hd b (List.mem_cons_self b t)
  have hws : isWsByte b = false := by simp [isWsByte]; omega
  have hall : (b :: t).takeWhile isDigitByte = b :: t :=
    List.takeWhile_eq_self_iff.mpr (fun a ha => by simp [isDigitByte]; exact hd a ha)
  have h43 : ¬ b = 43 := by omega
  have h45 : ¬ b = 45 := by omega
  unfold parseIntBase10
  simp only [List.dropWhile_cons, hws, Bool.false_eq_true, if_false, if_neg h43, if_neg h45,
    hall, List.isEmpty_cons, if_false]

theorem parseMessage_eq_of_colon (jd : List Nat → Option Msg) (data : List Nat) (sep : Nat)
    (hc : colonIdx data = some sep) (h1 : 1 ≤ sep) :
    parseMessage jd data =
      match parseIntBase10 (data.take sep) with
      | none =>
        { remainingData := data
          error := some "Error parsing RDP message length"
          fatal := some true }
      | some messageLength =>
        if (data.length : Int) - ((sep : Int) + 1) < messageLength then
          { remainingData := data }
        else
          match jd (bufSlice data ((sep : Int) + 1) ((sep : Int) + 1 + messageLength)) with
          | some m =>
            { remainingData := bufSlice data ((sep : Int) + 1 + messageLength) (data.length : Int)
              parsedMessage := some m }
          | none =>
            { remainingData := bufSlice data ((sep : Int) + 1 + messageLength) (data.length : Int)
              error := some "JSON parse error"
              fatal := some false } := by
  have hlt : ¬ ((sep : Int) < 1) := by exact_mod_cast Nat.not_lt.mpr h1
  simp only [parseMessage, hc, if_neg hlt, Int.toNat_natCast]

theorem parseMessage_whole_frame (jd : List Nat → Option Msg) (p rest : List Nat) :
    parseMessage jd (encodeFrame p ++ rest) =
      match jd p with
      | some m => { remainingData := rest, parsedMessage := some m }
      | none =>
        { remainingData := rest
          error := some "JSON parse error"
          fatal := some false } := by
  have hdata : encodeFrame p ++ rest
      = decimalRepr p.length ++ 58 :: (p ++ rest) := by
    simp [encodeFrame]
  set ds := decimalRepr p.length with hds
  have hcol : colonIdx (encodeFrame p ++ rest) = some ds.length := by
    rw [hdata]; exact colonIdx_append _ _ (decimalRepr_no_colon _)
  have hlen1 : 1 ≤ ds.length := List.length_pos.mpr (decimalRepr_ne_nil _)
  have htake : (encodeFrame p ++ rest).take ds.length = ds := by
    rw [hdata]
    have := @List.take_left _ ds (58 :: (p ++ rest))
    simp only [List.append_assoc, List.cons_append] at this ⊢
    exact this
  have hpi : parseIntBase10 ((encodeFrame p ++ rest).take ds.length)
      = some ((p.length : Nat) : Int) := by
    rw [htake, parseIntBase10_digits ds (decimalRepr_ne_nil _) (decimalRepr_digits _)]
    rw [hds, decimalRepr_val]
  have hlentot : (encodeFrame p ++ rest).length = ds.length + 1 + (p.length + rest.length) := by
    rw [hdata]; simp; omega
  have hcond : ¬ (((encodeFrame p ++ rest).length : Int) - ((ds.length : Int) + 1)
      < ((p.length : Nat) : Int)) := by
    rw [hlentot]; push_cast; omega
  have hsplit1 : encodeFrame p ++ rest = (ds ++ [58]) ++ (p ++ rest) := by
    rw [hdata]; simp
  have hsplit2 : encodeFrame p ++ rest = ((ds ++ [58]) ++ p) ++ rest := by
    rw [hdata]; simp
  have hcontent : bufSlice (encodeFrame p ++ rest) ((ds.length : Int) + 1)
      ((ds.length : Int) + 1 + ((p.length : Nat) : Int)) = p := by
    have hcast1 : ((ds.length : Int) + 1) = ((ds.length + 1 : Nat) : Int) := by push_cast; ring
    have hcast2 : ((ds.length : Int) + 1 + ((p.length : Nat) : Int))
        = ((ds.length + 1 + p.length : Nat) : Int) := by push_cast; ring
    rw [hcast2, hcast1, bufSlice_ofNat]
    rw [hsplit1]
    have h58 : ds.length + 1 + p.length = (ds ++ [58]).length + p.length := by simp
    rw [h58, List.take_append]
    have : (p ++ rest).take p.length = p := List.take_left p rest
    rw [this]
    have h58b : ds.length + 1 = (ds ++ [58]).length := by simp
    rw [h58b, List.drop_left]
  have hrem : bufSlice (encodeFrame p ++ rest) ((ds.length : Int) + 1 + ((p.length : Nat) : Int))
      (((encodeFrame p ++ rest).length : Nat) : Int) = rest := by
    have hcast2 : ((ds.length : Int) + 1 + ((p.length : Nat) : Int))
        = ((ds.length + 1 + p.length : Nat) : Int) := by push_cast; ring
    rw [hcast2, bufSlice_ofNat, List.take_length]
    rw [hsplit2]
    have hpl : ds.length + 1 + p.length = ((ds ++ [58]) ++ p).length := by simp; omega
    rw [hpl, List.drop_left]
  rw [parseMessage_eq_of_colon jd _ ds.length hcol hlen1, hpi]
  simp only [if_neg hcond, hcontent, hrem]

theorem parseMessage_partial_frame (jd : List Nat → Option Msg) (p b : List Nat)
    (h : StrictPre b (encodeFrame p)) :
    parseMessage jd b = { remainingData := b } := by
  obtain ⟨t, htne, hbt⟩ := h
  set ds := decimalRepr p.length with hds
  have hbt2 : b ++ t = ds ++ 58 :: p := by rw [hbt]; simp [encodeFrame]
  rcases le_or_lt b.length ds.length with hle | hgt
  · -- the buffer stops inside the digits: no colon at all
    have hbpre : b = ds.take b.length := by
      have h1 : (b ++ t).take b.length = b := List.take_left b t
      have h2 : (ds ++ 58 :: p).take b.length = ds.take b.length :=
        List.take_append_of_le_length hle
      rw [hbt2] at h1
      rw [h2] at h1
      exact h1.symm
    have hnocolon : ∀ x ∈ b, x ≠ 58 := by
      intro x hx
      rw [hbpre] at hx
      exact decimalRepr_no_colon _ x (List.mem_of_mem_take hx)
    simp [parseMessage, colonIdx_no_colon b hnocolon]
  · -- the buffer contains the separator but not the whole payload
    have hlieq : ds.length ≤ b.length := Nat.le_of_lt hgt
    have hdb : b.take ds.length = ds := by
      have h1 : (b ++ t).take ds.length = b.take ds.length :=
        List.take_append_of_le_length hlieq
      rw [hbt2] at h1
      rw [List.take_left ds (58 :: p)] at h1
      exact h1.symm
    obtain ⟨b2, hb2⟩ : ∃ b2, b = ds ++ b2 := by
      refine ⟨b.drop ds.length, ?_⟩
      conv_lhs => rw [← List.take_append_drop ds.length b]
      rw [hdb]
    have hb2t : b2 ++ t = 58 :: p := by
      have : (ds ++ b2) ++ t = ds ++ 58 :: p := by rw [← hb2]; exact hbt2
      rw [List.append_assoc] at this
      exact List.append_cancel_left this
    have hb2ne : b2 ≠ [] := by
      intro hnil
      rw [hb2, hnil] at hgt
      simp at hgt
    obtain ⟨p1, hp1⟩ : ∃ p1, b2 = 58 :: p1 := by
      obtain ⟨c, b3, rfl⟩ := List.exists_cons_of_ne_nil hb2ne
      have : c = 58 := by
        have := hb2t
        simp at this
        exact this.1
      exact ⟨b3, by rw [this]⟩
    have hp1t : p1 ++ t = p := by
      rw [hp1] at hb2t
      simpa using hb2t
    have hp1len : p1.length < p.length := by
      rw [← hp1t]
      simp
      exact List.length_pos.mpr htne
    have hbform : b = ds ++ 58 :: p1 := by rw [hb2, hp1]
    have hcol : colonIdx b = some ds.length := by
      rw [hbform]; exact colonIdx_append _ _ (decimalRepr_no_colon _)
    have hlen1 : 1 ≤ ds.length := List.length_pos.mpr (decimalRepr_ne_nil _)
    have htakeb : b.take ds.length = ds := hdb
    have hpi : parseIntBase10 (b.take ds.length) = some ((p.length : Nat) : Int) := by
      rw [htakeb, parseIntBase10_digits ds (decimalRepr_ne_nil _) (decimalRepr_digits _)]
      rw [hds, decimalRepr_val]
    have hblen : b.length = ds.length + 1 + p1.length := by rw [hbform]; simp; omega
    have hcond : ((b.length : Int) - ((ds.length : Int) + 1) < ((p.length : Nat) : Int)) := by
      rw [hblen]; push_cast; omega
    rw [parseMessage_eq_of_colon jd b ds.length hcol hlen1, hpi]
    simp only [if_pos hcond]

theorem rejectAllRequests_eq (s : ClientState) (reason : String) :
    rejectAllRequests s reason =
      { s with
        activeRequests := []
        pendingRequests := []
        trace := s.trace
          ++ s.activeRequests.map (fun p => TraceEv.settle p.2 false reason)
          ++ s.pendingRequests.map (fun p => TraceEv.settle p.2 false reason) } := by
  have key : ∀ {α : Type} (l : List (α × Nat)) (t : ClientState),
      l.foldl (fun t p => settleEv t p.2 false reason) t
        = { t with trace := t.trace ++ l.map (fun p => TraceEv.settle p.2 false reason) } := by
    intro α l
    induction l with
    | nil => intro t; simp
    | cons x xs ih =>
      intro t
      rw [List.foldl_cons, ih]
      simp [settleEv]
  unfold rejectAllRequests
  simp only [key]

/-!
# Claims C10 and C3: framer severity and the empty length prefix
-/

/-- C10: on any buffer whose first `:` sits at index 0 (an empty length
prefix), `parseMessage` returns no frame, no error, and the buffer
unchanged — the normal partial-read answer, not a fatal prefix error.  The
client therefore never consumes those bytes: feeding any further fills
leaves the whole client state unchanged except for the ever-growing buffer,
so no frame is ever parsed again on that connection. -/
theorem claim_C10_empty_length_stall (jd : List Nat → Option Msg) (t : List Nat)
    (s : ClientState) (fills : List (List Nat)) :
    parseMessage jd (58 :: t) = { remainingData := 58 :: t } ∧
    List.foldl (onData jd) { s with incomingData := 58 :: t } fills
      = { s with incomingData := 58 :: (t ++ fills.flatten) } := by
  refine ⟨parseMessage_stall jd t, ?_⟩
  induction fills generalizing t with
  | nil => simp
  | cons f fs ih =>
    rw [List.foldl_cons, onData_stall jd _ t rfl f]
    have h3 := ih (t ++ f)
    simp only [List.cons_append] at h3 ⊢
    rw [h3]
    simp

/-- C3: frame-error severity.  For a buffer whose `:` separator sits at
index `sep ≥ 1`: if `Number.parseInt` cannot read a number from the prefix
(the non-numeric case), `parseMessage` reports a fatal error with the
buffer unconsumed, and the reading client closes the connection (listeners
removed, socket ended, read loop stopped); if the prefix parses to a length
`len` whose payload is fully available but fails to decode, `parseMessage`
reports a non-fatal error whose remainder has advanced exactly past the
`sep + 1 + len` consumed bytes, and the reading client keeps going (the
continue flag stays `true`).  A length is a byte count, so the second part
is stated for non-negative parses. -/
theorem claim_C3_severity_split (jd : List Nat → Option Msg) (data : List Nat) (sep : Nat)
    (s : ClientState) (hc : colonIdx data = some sep) (h1 : 1 ≤ sep)
    (hbuf : s.incomingData = data) (hconn : s.hasConnection = true) :
    (parseIntBase10 (data.take sep) = none →
      parseMessage jd data =
        { remainingData := data
          error := some "Error parsing RDP message length"
          fatal := some true } ∧
      (readMessage jd s).2 = false ∧
      (readMessage jd s).1.listenersRemoved = true ∧
      (readMessage jd s).1.ended = true) ∧
    (∀ len : Nat, parseIntBase10 (data.take sep) = some (len : Int) →
      sep + 1 + len ≤ data.length →
      jd ((data.drop (sep + 1)).take len) = none →
      parseMessage jd data =
        { remainingData := data.drop (sep + 1 + len)
          error := some "JSON parse error"
          fatal := some false } ∧
      (readMessage jd s).2 = true ∧
      (readMessage jd s).1.incomingData = data.drop (sep + 1 + len)) := by
  constructor
  · intro hpi
    have hpm : parseMessage jd data =
        { remainingData := data
          error := some "Error parsing RDP message length"
          fatal := some true } := by
      rw [parseMessage_eq_of_colon jd data sep hc h1, hpi]
    refine ⟨hpm, ?_⟩
    have hpm2 : parseMessage jd s.incomingData =
        { remainingData := data
          error := some "Error parsing RDP message length"
          fatal := some true } := by rw [hbuf, hpm]
    simp only [readMessage, hpm2]
    have hconn2 : ({ s with incomingData := data } : ClientState).hasConnection = true := hconn
    simp [disconnect, hconn2, rejectAllRequests_eq, emitEv]
  · intro len hpi havail hjd
    have hcontent : bufSlice data ((sep : Int) + 1) ((sep : Int) + 1 + ((len : Nat) : Int))
        = (data.drop (sep + 1)).take len := by
      have hcast2 : ((sep : Int) + 1 + ((len : Nat) : Int)) = ((sep + 1 + len : Nat) : Int) := by
        push_cast; ring
      have hcast1 : ((sep : Int) + 1) = ((sep + 1 : Nat) : Int) := by push_cast; ring
      rw [hcast2, hcast1, bufSlice_ofNat, List.drop_take]
      congr 1
      omega
    have hrem : bufSlice data ((sep : Int) + 1 + ((len : Nat) : Int)) ((data.length : Nat) : Int)
        = data.drop (sep + 1 + len) := by
      have hcast2 : ((sep : Int) + 1 + ((len : Nat) : Int)) = ((sep + 1 + len : Nat) : Int) := by
        push_cast; ring
      rw [hcast2, bufSlice_ofNat, List.take_length]
    have hcond : ¬ ((data.length : Int) - ((sep : Int) + 1) < ((len : Nat) : Int)) := by
      omega
    have hpm : parseMessage jd data =
        { remainingData := data.drop (sep + 1 + len)
          error := some "JSON parse error"
          fatal := some false } := by
      rw [parseMessage_eq_of_colon jd data sep hc h1, hpi]
      simp only [if_neg hcond, hcontent, hjd, hrem]
    refine ⟨hpm, ?_⟩
    have hpm2 : parseMessage jd s.incomingData =
        { remainingData := data.drop (sep + 1 + len)
          error := some "JSON parse error"
          fatal := some false } := by rw [hbuf, hpm]
    simp [readMessage, hpm2, emitEv]

/-- Witness for C3 at concrete inputs: the buffer `"x:"` (separator at index
1, prefix `"x"` unparsable) and, for the payload half, the theorem applied
to the buffer `"1:Z"` whose single payload byte the decoder rejects. -/
theorem claim_C3_witness :
    ((parseIntBase10 ([120, 58].take 1) = none →
      parseMessage (fun _ => none) [120, 58] =
        { remainingData := [120, 58]
          error := some "Error parsing RDP message length"
          fatal := some true } ∧
      (readMessage (fun _ => none)
          { incomingData := [120, 58], hasConnection := true }).2 = false ∧
      (readMessage (fun _ => none)
          { incomingData := [120, 58], hasConnection := true }).1.listenersRemoved = true ∧
      (readMessage (fun _ => none)
          { incomingData := [120, 58], hasConnection := true }).1.ended = true) ∧
    (∀ len : Nat, parseIntBase10 ([120, 58].take 1) = some (len : Int) →
      1 + 1 + len ≤ [120, 58].length →
      (fun _ => (none : Option Msg)) (([120, 58].drop (1 + 1)).take len) = none →
      parseMessage (fun _ => none) [120, 58] =
        { remainingData := [120, 58].drop (1 + 1 + len)
          error := some "JSON parse error"
          fatal := some false } ∧
      (readMessage (fun _ => none)
          { incomingData := [120, 58], hasConnection := true }).2 = true ∧
      (readMessage (fun _ => none)
          { incomingData := [120, 58], hasConnection := true }).1.incomingData
        = [120, 58].drop (1 + 1 + len))) ∧
    ((parseIntBase10 ([49, 58, 90].take 1) = none →
      parseMessage (fun _ => none) [49, 58, 90] =
        { remainingData := [49, 58, 90]
          error := some "Error parsing RDP message length"
          fatal := some true } ∧
      (readMessage (fun _ => none)
          { incomingData := [49, 58, 90], hasConnection := true }).2 = false ∧
      (readMessage (fun _ => none)
          { incomingData := [49, 58, 90], hasConnection := true }).1.listenersRemoved = true ∧
      (readMessage (fun _ => none)
          { incomingData := [49, 58, 90], hasConnection := true }).1.ended = true) ∧
    (∀ len : Nat, parseIntBase10 ([49, 58, 90].take 1) = some (len : Int) →
      1 + 1 + len ≤ [49, 58, 90].length →
      (fun _ => (none : Option Msg)) (([49, 58, 90].drop (1 + 1)).take len) = none →
      parseMessage (fun _ => none) [49, 58, 90] =
        { remainingData := [49, 58, 90].drop (1 + 1 + len)
          error := some "JSON parse error"
          fatal := some false } ∧
      (readMessage (fun _ => none)
          { incomingData := [49, 58, 90], hasConnection := true }).2 = true ∧
      (readMessage (fun _ => none)
          { incomingData := [49, 58, 90], hasConnection := true }).1.incomingData
        = [49, 58, 90].drop (1 + 1 + len))) :=
  ⟨claim_C3_severity_split (fun _ => none) [120, 58] 1
      { incomingData := [120, 58], hasConnection := true }
      (by decide) (by decide) rfl rfl,
    claim_C3_severity_split (fun _ => none) [49, 58, 90] 1
      { incomingData := [49, 58, 90], hasConnection := true }
      (by decide) (by decide) rfl rfl⟩

/-!
# Claim C7: watcher error isolation
-/

/-- C7: errors of rebuild or reload cycles never escape the watcher
boundary.  Folding any sequence of (debounced) change events over the
handler is total and fully characterized: every event fires exactly one
cycle, recorded in order with the error it ended with, and the boundary
log contains exactly the errors of the failed cycles — so a failing cycle
is caught and logged, and every later change event still runs its cycle. -/
theorem claim_C7_watcher_isolation (c : WatchCollab) (paths : List String) :
    (watchRun c paths).cycles
      = paths.map (fun p =>
          (p, match onChange c p with | .ok _ => none | .error e => some e)) ∧
    (watchRun c paths).loggedErrors
      = paths.filterMap (fun p =>
          match onChange c p with | .ok _ => none | .error e => some e) := by
  have key : ∀ (ps : List String) (st : WatchSt),
      (ps.foldl (onChangeDebounced c) st).cycles
        = st.cycles ++ ps.map (fun p =>
            (p, match onChange c p with | .ok _ => none | .error e => some e)) ∧
      (ps.foldl (onChangeDebounced c) st).loggedErrors
        = st.loggedErrors ++ ps.filterMap (fun p =>
            match onChange c p with | .ok _ => none | .error e => some e) := by
    intro ps
    induction ps with
    | nil => intro st; simp
    | cons p ps ih =>
      intro st
      rw [List.foldl_cons]
      rcases hcy : onChange c p with v | e
      · have h1 := ih (onChangeDebounced c st p)
        rw [h1.1, h1.2]
        simp [onChangeDebounced, hcy]
      · have h1 := ih (onChangeDebounced c st p)
        rw [h1.1, h1.2]
        simp [onChangeDebounced, hcy]
  have h := key paths {}
  simpa [watchRun] using h

/-!
# Claims C8 and C9: the result-bridge HTTP surface
-/

/-- C8: the HTTP surface of the result bridge.  `GET /` answers the liveness
text; `POST /update` with a body `JSON.parse` rejects answers 400 without
touching the state, and — the listener survives — serving any further
requests after the malformed one behaves exactly as if it had never
happened (same final state, same responses, the 400 prepended); every other
method/path combination answers 404. -/
theorem claim_C8_http_surface (cfg : TestCfg) (st : TesterSt) (method url : String)
    (b : Option JsonBody) (reqs : List HttpReq)
    (hex : st.exited = none)
    (hm1 : ¬ (method = "GET" ∧ url = "/"))
    (hm2 : ¬ (method = "POST" ∧ url = "/update")) :
    handleRequest cfg st "GET" "/" b
      = (st, { status := 200, body := "Zotero Plugin Test Server is running" }) ∧
    handleRequest cfg st "POST" "/update" none
      = (st, { status := 400, body := "Invalid JSON" }) ∧
    serveAll cfg st ({ method := "POST", url := "/update", parsedBody := none } :: reqs)
      = ((serveAll cfg st reqs).1,
          { status := 400, body := "Invalid JSON" } :: (serveAll cfg st reqs).2) ∧
    handleRequest cfg st method url b = (st, { status := 404, body := "Not Found" }) := by
  refine ⟨by simp [handleRequest], by simp [handleRequest], ?_, ?_⟩
  · have hbad : handleRequest cfg st "POST" "/update" none
        = (st, { status := 400, body := "Invalid JSON" }) := by simp [handleRequest]
    have hexb : st.exited.isSome = false := by simp [hex]
    simp only [serveAll, hexb, Bool.false_eq_true, if_false, hbad]
  · simp only [handleRequest, if_neg hm1, if_neg hm2]

/-- Witness for C8 at concrete inputs: a fresh tester state, a `PUT /other`
request for the 404 branch, and one follow-up request after the malformed
post. -/
theorem claim_C8_witness :
    handleRequest {} {} "GET" "/" none
      = ({}, { status := 200, body := "Zotero Plugin Test Server is running" }) ∧
    handleRequest {} {} "POST" "/update" none
      = ({}, { status := 400, body := "Invalid JSON" }) ∧
    serveAll {} {} ({ method := "POST", url := "/update", parsedBody := none }
        :: [{ method := "GET", url := "/", parsedBody := none }])
      = ((serveAll {} {} [{ method := "GET", url := "/", parsedBody := none }]).1,
          { status := 400, body := "Invalid JSON" }
            :: (serveAll {} {} [{ method := "GET", url := "/", parsedBody := none }]).2) ∧
    handleRequest {} {} "PUT" "/other" none = ({}, { status := 404, body := "Not Found" }) :=
  claim_C8_http_surface {} {} "PUT" "/other" none
    [{ method := "GET", url := "/", parsedBody := none }]
    rfl (by simp) (by simp)

/-- C9: a syntactically valid `POST /update` body whose `data` object lacks
`str` makes the handler throw on `body.data?.str.replaceAll` — the server
answers 400 Invalid JSON even though the body was well-formed JSON — while
a body with `data` omitted entirely is accepted (the optional chain
short-circuits). -/
theorem claim_C9_missing_str (cfg : TestCfg) (st : TesterSt) (ty : String) (d : JsData)
    (hstr : d.str = none) :
    onHttpDataUpdated cfg st { jtype := ty, data := some d } = .error () ∧
    handleRequest cfg st "POST" "/update" (some { jtype := ty, data := some d })
      = (st, { status := 400, body := "Invalid JSON" }) ∧
    ∃ st2, onHttpDataUpdated cfg st { jtype := ty, data := none } = .ok st2 := by
  have herr : onHttpDataUpdated cfg st { jtype := ty, data := some d } = .error () := by
    simp [onHttpDataUpdated, hstr, strTruthy]
  refine ⟨herr, ?_, ?_⟩
  · simp [handleRequest, herr]
  · exact ⟨onHttpTail cfg st { jtype := ty, data := none } none,
      by simp [onHttpDataUpdated, strTruthy]⟩

/-!
# Claim C4: reassembly across arbitrary fill splits
-/

theorem parseMessage_nil (jd : List Nat → Option Msg) :
    parseMessage jd [] = { remainingData := [] } := by
  simp [parseMessage, colonIdx]

theorem readMessage_noframe (jd : List Nat → Option Msg) (s : ClientState)
    (h : parseMessage jd s.incomingData = { remainingData := s.incomingData }) :
    readMessage jd s = (s, false) := by
  simp [readMessage, h]

theorem readLoop_noframe (jd : List Nat → Option Msg) (s : ClientState)
    (h : readMessage jd s = (s, false)) (fuel : Nat) : readLoop jd fuel s = s := by
  cases fuel with
  | zero => rfl
  | succ n => simp [readLoop, h]

theorem flushAux_data (l : List (Request × Nat)) :
    ∀ (s : ClientState),
    (flushAux s l).2.1.incomingData = s.incomingData ∧
    (flushAux s l).2.1.decoded = s.decoded := by
  induction l with
  | nil => intro s; exact ⟨rfl, rfl⟩
  | cons p l ih =>
    intro s
    obtain ⟨req, d⟩ := p
    by_cases h1 : mapHas s.activeRequests (req.toActor.getD "")
    · simpa only [flushAux, h1, if_true] using ih s
    · by_cases h2 : s.hasConnection
      · have hstep : flushAux s ((req, d) :: l)
            = flushAux (expectReply (writeReq s (req.toActor.getD "") d)
                (req.toActor.getD "") d) l := by
          simp [flushAux, h1, h2]
        rw [hstep]
        have h3 := ih (expectReply (writeReq s (req.toActor.getD "") d) (req.toActor.getD "") d)
        have h4 : (expectReply (writeReq s (req.toActor.getD "") d)
            (req.toActor.getD "") d).incomingData = s.incomingData := by
          unfold expectReply writeReq
          split <;> rfl
        have h5 : (expectReply (writeReq s (req.toActor.getD "") d)
            (req.toActor.getD "") d).decoded = s.decoded := by
          unfold expectReply writeReq
          split <;> rfl
        exact ⟨h3.1.trans h4, h3.2.trans h5⟩
      · have hstep : flushAux s ((req, d) :: l)
            = ([], { s with crashed := true }, true) := by
          simp [flushAux, h1, h2]
        rw [hstep]
        exact ⟨rfl, rfl⟩

theorem flushPendingRequests_data (s : ClientState) :
    (flushPendingRequests s).1.incomingData = s.incomingData ∧
    (flushPendingRequests s).1.decoded = s.decoded := by
  have h := flushAux_data s.pendingRequests s
  by_cases hab : (flushAux s s.pendingRequests).2.2
  · simp only [flushPendingRequests, hab, if_true]
    exact ⟨h.1, h.2⟩
  · simp only [flushPendingRequests, hab, Bool.false_eq_true, if_false]
    exact ⟨h.1, h.2⟩

theorem handleMessage_data (s : ClientState) (m : Msg) :
    (handleMessage s m).incomingData = s.incomingData ∧
    (handleMessage s m).decoded = s.decoded := by
  unfold handleMessage
  by_cases h1 : m.fromActor.getD "" = ""
  · simp [h1, emitEv]
  · simp only [h1, if_false]
    cases hget : mapGet s.activeRequests (m.fromActor.getD "") with
    | none => simp [emitEv]
    | some d =>
      simp only
      have hf := flushPendingRequests_data
        (if m.error then
          settleEv { s with activeRequests := mapDelete s.activeRequests (m.fromActor.getD "") }
            d false "RDP error reply"
        else
          settleEv { s with activeRequests := mapDelete s.activeRequests (m.fromActor.getD "") }
            d true "")
      rcases hf with ⟨ha, hb⟩
      constructor
      · rw [ha]; split <;> rfl
      · rw [hb]; split <;> rfl

theorem encodeFrames_cons (q : List Nat) (l : List (List Nat)) :
    encodeFrames (q :: l) = encodeFrame q ++ encodeFrames l := by
  simp [encodeFrames]

theorem encodeFrame_two_le (q : List Nat) : 2 ≤ (encodeFrame q).length := by
  have h := List.length_pos.mpr (decimalRepr_ne_nil q.length)
  simp [encodeFrame]
  omega

/-- Draining one buffer that is a prefix of a well-formed frame stream:
the read loop extracts every complete frame in order and leaves the
strictly-partial tail in the buffer. -/
theorem drainAux (jd : List Nat → Option Msg) :
    ∀ (n : Nat) (c : List Nat), c.length ≤ n →
    ∀ (qs : List (List Nat)) (ms : List Msg),
      List.Forall₂ (fun p m => jd p = some m) qs ms →
      (∃ tl, c ++ tl = encodeFrames qs) →
      ∀ (s : ClientState), s.incomingData = c →
      ∀ (fuel : Nat), c.length + 1 ≤ fuel →
      ∃ j b, j ≤ qs.length ∧
        c = encodeFrames (qs.take j) ++ b ∧
        PartialBuf b (qs.drop j) ∧
        (readLoop jd fuel s).incomingData = b ∧
        (readLoop jd fuel s).decoded = s.decoded ++ ms.take j := by
  intro n
  induction n with
  | zero =>
    intro c hc qs ms h2 hpre s hs fuel hf
    have hcn : c = [] := List.length_eq_zero.mp (Nat.le_zero.mp hc)
    subst hcn
    have hrm : readMessage jd s = (s, false) := by
      apply readMessage_noframe
      rw [hs]
      exact parseMessage_nil jd
    refine ⟨0, [], Nat.zero_le _, by simp [encodeFrames], ?_, ?_, ?_⟩
    · cases qs with
      | nil => exact Or.inl ⟨rfl, rfl⟩
      | cons q qs2 =>
        refine Or.inr ⟨q, qs2, by simp, (encodeFrame q), ?_, by simp⟩
        intro hnil
        have := encodeFrame_two_le q
        rw [hnil] at this
        simp at this
    · rw [readLoop_noframe jd s hrm]; exact hs
    · rw [readLoop_noframe jd s hrm]; simp
  | succ n ih =>
    intro c hc qs ms h2 hpre s hs fuel hf
    cases qs with
    | nil =>
      cases h2
      obtain ⟨tl, htl⟩ := hpre
      have hcn : c = [] := by
        have : c ++ tl = [] := by rw [htl]; simp [encodeFrames]
        exact (List.append_eq_nil.mp this).1
      subst hcn
      have hrm : readMessage jd s = (s, false) := by
        apply readMessage_noframe
        rw [hs]
        exact parseMessage_nil jd
      refine ⟨0, [], Nat.zero_le _, by simp [encodeFrames], Or.inl ⟨rfl, rfl⟩, ?_, ?_⟩
      · rw [readLoop_noframe jd s hrm]; exact hs
      · rw [readLoop_noframe jd s hrm]; simp
    | cons q qs2 =>
      cases h2 with
      | cons hm h22 =>
        rename_i m ms2
        obtain ⟨tl, htl⟩ := hpre
        rw [encodeFrames_cons] at htl
        by_cases hlen : c.length < (encodeFrame q).length
        · -- the first frame is incomplete: the loop stops, everything buffered
          have hcpre : StrictPre c (encodeFrame q) := by
            have h1 : (c ++ tl).take c.length = c := List.take_left c tl
            rw [htl] at h1
            rw [List.take_append_of_le_length (Nat.le_of_lt hlen)] at h1
            refine ⟨(encodeFrame q).drop c.length, ?_, ?_⟩
            · intro hnil
              have := congrArg List.length hnil
              simp at this
              omega
            · conv_rhs => rw [← List.take_append_drop c.length (encodeFrame q)]
              rw [h1]
          have hrm : readMessage jd s = (s, false) := by
            apply readMessage_noframe
            rw [hs]
            exact parseMessage_partial_frame jd q c hcpre
          refine ⟨0, c, Nat.zero_le _, by simp [encodeFrames], ?_, ?_, ?_⟩
          · exact Or.inr ⟨q, qs2, rfl, hcpre⟩
          · rw [readLoop_noframe jd s hrm]; exact hs
          · rw [readLoop_noframe jd s hrm]; simp
        · -- a whole frame is available: consume it and recurse
          push_neg at hlen
          have hflen := encodeFrame_two_le q
          have h1 : (c ++ tl).take (encodeFrame q).length = c.take (encodeFrame q).length :=
            List.take_append_of_le_length hlen
          rw [htl] at h1
          rw [List.take_left (encodeFrame q) (encodeFrames qs2)] at h1
          have hcdec : c = encodeFrame q ++ c.drop (encodeFrame q).length := by
            conv_lhs => rw [← List.take_append_drop (encodeFrame q).length c]
            rw [← h1]
          have hc2tl : c.drop (encodeFrame q).length ++ tl = encodeFrames qs2 := by
            have : (encodeFrame q ++ c.drop (encodeFrame q).length) ++ tl
                = encodeFrame q ++ encodeFrames qs2 := by rw [← hcdec]; exact htl
            rw [List.append_assoc] at this
            exact List.append_cancel_left this
          have hpm0 : parseMessage jd (encodeFrame q ++ c.drop (encodeFrame q).length) =
              { remainingData := c.drop (encodeFrame q).length, parsedMessage := some m } := by
            rw [parseMessage_whole_frame, hm]
          have hpm : parseMessage jd s.incomingData =
              { remainingData := c.drop (encodeFrame q).length, parsedMessage := some m } := by
            rw [hs]
            conv_lhs => rw [hcdec]
            exact hpm0
          have hrm : readMessage jd s =
              (handleMessage
                { s with
                  incomingData := c.drop (encodeFrame q).length
                  decoded := s.decoded ++ [m] } m, true) := by
            simp [readMessage, hpm]
          have hdat := handleMessage_data
            { s with
              incomingData := c.drop (encodeFrame q).length
              decoded := s.decoded ++ [m] } m
          obtain ⟨fu, rfl⟩ : ∃ fu, fuel = fu + 1 := by
            cases fuel with
            | zero => omega
            | succ k => exact ⟨k, rfl⟩
          have hloop : readLoop jd (fu + 1) s
              = readLoop jd fu (handleMessage
                  { s with
                    incomingData := c.drop (encodeFrame q).length
                    decoded := s.decoded ++ [m] } m) := by
            simp [readLoop, hrm]
          have hlenc2 : (c.drop (encodeFrame q).length).length ≤ n := by
            simp only [List.length_drop]
            omega
          have hfuel2 : (c.drop (encodeFrame q).length).length + 1 ≤ fu := by
            simp only [List.length_drop]
            omega
          obtain ⟨j, b, hj, hdecomp, hpart, hbuf, hdecoded⟩ :=
            ih (c.drop (encodeFrame q).length) hlenc2 qs2 ms2 h22 ⟨tl, hc2tl⟩
              (handleMessage
                { s with
                  incomingData := c.drop (encodeFrame q).length
                  decoded := s.decoded ++ [m] } m)
              hdat.1 fu hfuel2
          refine ⟨j + 1, b, by simpa using Nat.succ_le_succ hj, ?_, ?_, ?_, ?_⟩
          · calc c = encodeFrame q ++ c.drop (encodeFrame q).length := hcdec
              _ = encodeFrame q ++ (encodeFrames (qs2.take j) ++ b) := by rw [hdecomp]
              _ = encodeFrames ((q :: qs2).take (j + 1)) ++ b := by
                  simp [encodeFrames_cons, List.append_assoc]
          · simpa using hpart
          · rw [hloop]; exact hbuf
          · rw [hloop, hdecoded, hdat.2]
            simp

/-- Folding a sequence of fills whose bytes concatenate to a well-formed
frame stream: every message is delivered exactly once, in order, and the
buffer is empty at the end. -/
theorem foldFills (jd : List Nat → Option Msg) :
    ∀ (fills : List (List Nat)) (qs : List (List Nat)) (ms : List Msg),
      List.Forall₂ (fun p m => jd p = some m) qs ms →
      ∀ (s : ClientState), PartialBuf s.incomingData qs →
      s.incomingData ++ fills.flatten = encodeFrames qs →
      (List.foldl (onData jd) s fills).decoded = s.decoded ++ ms ∧
      (List.foldl (onData jd) s fills).incomingData = [] := by
  intro fills
  induction fills with
  | nil =>
    intro qs ms h2 s hpart hstream
    simp only [List.flatten_nil, List.append_nil] at hstream
    rcases hpart with ⟨hqs, hbuf⟩ | ⟨q, qs2, rfl, t, htne, hbt⟩
    · subst hqs
      cases h2
      simp [hbuf]
    · exfalso
      have h1 := congrArg List.length hstream
      have h2l := congrArg List.length hbt
      rw [encodeFrames_cons] at h1
      simp at h1 h2l
      have htpos : 0 < t.length := List.length_pos.mpr htne
      omega
  | cons f fs ih =>
    intro qs ms h2 s hpart hstream
    rw [List.foldl_cons]
    have honda : onData jd s f
        = readLoop jd ((s.incomingData ++ f).length + 1)
            { s with incomingData := s.incomingData ++ f } := rfl
    have hpre : ∃ tl, (s.incomingData ++ f) ++ tl = encodeFrames qs := by
      refine ⟨fs.flatten, ?_⟩
      rw [List.append_assoc]
      simpa using hstream
    obtain ⟨j, b, hj, hdecomp, hpart2, hbuf, hdecoded⟩ :=
      drainAux jd (s.incomingData ++ f).length (s.incomingData ++ f) le_rfl qs ms h2 hpre
        { s with incomingData := s.incomingData ++ f } rfl
        ((s.incomingData ++ f).length + 1) le_rfl
    have hstream2 : (onData jd s f).incomingData ++ fs.flatten = encodeFrames (qs.drop j) := by
      rw [honda, hbuf]
      have hqs : encodeFrames qs
          = encodeFrames (qs.take j) ++ encodeFrames (qs.drop j) := by
        unfold encodeFrames
        rw [← List.flatten_append, ← List.map_append, List.take_append_drop]
      have h3 : (s.incomingData ++ f) ++ fs.flatten = encodeFrames qs := by
        rw [List.append_assoc]
        simpa using hstream
      rw [hdecomp] at h3
      rw [hqs] at h3
      rw [List.append_assoc] at h3
      exact List.append_cancel_left h3
    have hIH := ih (qs.drop j) (ms.drop j) (List.forall₂_drop j h2) (onData jd s f)
      (by rw [honda, hbuf]; exact hpart2) hstream2
    refine ⟨?_, hIH.2⟩
    rw [hIH.1, honda, hdecoded]
    simp

/-- C4: for every well-formed frame sequence (each payload decodes to its
message) and every split of its bytes into successive fills, feeding the
fills through `onData` delivers exactly the original messages, in order:
split frames are buffered until complete and multiple frames in one fill
are all extracted, ending with an empty buffer. -/
theorem claim_C4_reassembly (jd : List Nat → Option Msg)
    (ps : List (List Nat)) (ms : List Msg)
    (h2 : List.Forall₂ (fun p m => jd p = some m) ps ms)
    (fills : List (List Nat)) (hsplit : fills.flatten = encodeFrames ps)
    (s : ClientState) (hbuf : s.incomingData = []) :
    (List.foldl (onData jd) s fills).decoded = s.decoded ++ ms ∧
    (List.foldl (onData jd) s fills).incomingData = [] := by
  apply foldFills jd fills ps ms h2 s
  · rw [hbuf]
    cases ps with
    | nil => exact Or.inl ⟨rfl, rfl⟩
    | cons q qs2 =>
      refine Or.inr ⟨q, qs2, rfl, encodeFrame q, ?_, by simp⟩
      intro hnil
      have := encodeFrame_two_le q
      rw [hnil] at this
      simp at this
  · rw [hbuf, hsplit]
    simp

/-- Witness for C4 at a concrete input: two frames `1:h` (payload byte 104,
declared length 1), split as `"1" / ":h1:" / "h"` — one frame split across
fills and one fill carrying parts of two frames — delivered to a fresh
client. -/
theorem claim_C4_witness :
    (List.foldl
        (onData (fun b => if b = [104] then some { mtype := some "hi" } else none))
        {} [[49], [58, 104, 49, 58], [104]]).decoded
      = [] ++ [{ mtype := some "hi" }, { mtype := some "hi" }] ∧
    (List.foldl
        (onData (fun b => if b = [104] then some { mtype := some "hi" } else none))
        {} [[49], [58, 104, 49, 58], [104]]).incomingData = [] :=
  claim_C4_reassembly (fun b => if b = [104] then some { mtype := some "hi" } else none)
    [[104], [104]] [{ mtype := some "hi" }, { mtype := some "hi" }]
    (List.Forall₂.cons (by decide)
      (List.Forall₂.cons (by decide) List.Forall₂.nil))
    [[49], [58, 104, 49, 58], [104]] (by decide) {} rfl

/-!
# Claim C5: the pass/fail aggregate and the exit decision
-/

/-- Counterexample to C5 as stated.  The aggregate after pass ×3, fail, end
is indeed (3, 1) — but it lives in the injected reporter, and it is not
read at the `end` event to decide the exit code: the orchestrator handler
(`onHttpDataUpdated`, the claimed source) exits with code 0 at `end` under
exit-on-finish even though the run holds a failure, exactly as it does for
a run with no failures at all.  A failed aggregate and an all-passed
aggregate produce the same exit decision at `end`, so the exit code is not
a function of the aggregate read there. -/
theorem claim_C5_counterexample :
    (reporterRun false true [.pass, .pass, .pass, .fail, .endEv]).passed = 3 ∧
    (reporterRun false true [.pass, .pass, .pass, .fail, .endEv]).failed = 1 ∧
    (serveAll { abortOnFail := false, exitOnFinish := true } {}
        [⟨"POST", "/update", some ⟨"pass", none⟩⟩,
         ⟨"POST", "/update", some ⟨"pass", none⟩⟩,
         ⟨"POST", "/update", some ⟨"pass", none⟩⟩,
         ⟨"POST", "/update", some ⟨"fail", none⟩⟩,
         ⟨"POST", "/update", some ⟨"end", none⟩⟩]).1.exited = some 0 ∧
    (serveAll { abortOnFail := false, exitOnFinish := true } {}
        [⟨"POST", "/update", some ⟨"end", none⟩⟩]).1.exited = some 0 := by
  refine ⟨by decide, by decide, by decide, by decide⟩

/-- C5 (amended): after pass ×3, fail, end the aggregate counters —
maintained by the reporter the repository injects into the target, not by
the HTTP bridge — equal passed 3, failed 1, and are posted with the `end`
event.  The exit code is not derived from the aggregate at `end`: under
exit-on-finish the `end` handler always exits 0; a non-zero exit (code 1)
arises only from a `fail` event when abort-on-fail and exit-on-finish are
both configured, before `end` arrives. -/
theorem claim_C5_amended :
    (∀ af ef : Bool,
      (reporterRun af ef [.pass, .pass, .pass, .fail, .endEv]).passed = 3 ∧
      (reporterRun af ef [.pass, .pass, .pass, .fail, .endEv]).failed = 1 ∧
      (reporterRun af ef [.pass, .pass, .pass, .fail, .endEv]).sentEnd = some (3, 1, af)) ∧
    (serveAll { abortOnFail := false, exitOnFinish := true } {}
        [⟨"POST", "/update", some ⟨"pass", none⟩⟩,
         ⟨"POST", "/update", some ⟨"pass", none⟩⟩,
         ⟨"POST", "/update", some ⟨"pass", none⟩⟩,
         ⟨"POST", "/update", some ⟨"fail", none⟩⟩,
         ⟨"POST", "/update", some ⟨"end", none⟩⟩]).1.exited = some 0 ∧
    (serveAll { abortOnFail := true, exitOnFinish := true } {}
        [⟨"POST", "/update", some ⟨"pass", none⟩⟩,
         ⟨"POST", "/update", some ⟨"pass", none⟩⟩,
         ⟨"POST", "/update", some ⟨"pass", none⟩⟩,
         ⟨"POST", "/update", some ⟨"fail", none⟩⟩,
         ⟨"POST", "/update", some ⟨"end", none⟩⟩]).1.exited = some 1 := by
  refine ⟨?_, by decide, by decide⟩
  intro af ef
  cases af <;> cases ef <;> decide

/-- Witness for C9 at a concrete input: the body
a pass event with an empty data object. -/
theorem claim_C9_witness :
    onHttpDataUpdated {} {} { jtype := "pass", data := some {} } = .error () ∧
    handleRequest {} {} "POST" "/update" (some { jtype := "pass", data := some {} })
      = ({}, { status := 400, body := "Invalid JSON" }) ∧
    ∃ st2, onHttpDataUpdated {} {} { jtype := "pass", data := none } = .ok st2 :=
  claim_C9_missing_str {} {} "pass" {} rfl

/-!
# Trace algebra for the request machinery
-/

theorem writeCnt_append (T1 T2 : List TraceEv) (d : Nat) :
    writeCnt (T1 ++ T2) d = writeCnt T1 d + writeCnt T2 d :=
  List.countP_append _ _ _

theorem settleCnt_append (T1 T2 : List TraceEv) (d : Nat) :
    settleCnt (T1 ++ T2) d = settleCnt T1 d + settleCnt T2 d :=
  List.countP_append _ _ _

theorem writeCnt_settle (d2 : Nat) (ok : Bool) (r : String) (d : Nat) :
    writeCnt [TraceEv.settle d2 ok r] d = 0 := by
  simp [writeCnt]

theorem writeCnt_issue (a : String) (d2 d : Nat) :
    writeCnt [TraceEv.issue a d2] d = 0 := by
  simp [writeCnt]

theorem writeCnt_write (a : String) (d2 d : Nat) :
    writeCnt [TraceEv.write a d2] d = if d2 = d then 1 else 0 := by
  by_cases h : d2 = d <;> simp [writeCnt, h]

theorem settleCnt_settle (d2 : Nat) (ok : Bool) (r : String) (d : Nat) :
    settleCnt [TraceEv.settle d2 ok r] d = if d2 = d then 1 else 0 := by
  by_cases h : d2 = d <;> simp [settleCnt, h]

theorem settleCnt_issue (a : String) (d2 d : Nat) :
    settleCnt [TraceEv.issue a d2] d = 0 := by
  simp [settleCnt]

theorem settleCnt_write (a : String) (d2 d : Nat) :
    settleCnt [TraceEv.write a d2] d = 0 := by
  simp [settleCnt]

theorem writtenTo_writeCnt (T : List TraceEv) (a : String) (d : Nat)
    (h : writtenTo T a d) : 1 ≤ writeCnt T d := by
  rw [show (1 : Nat) ≤ writeCnt T d ↔ 0 < writeCnt T d from Iff.rfl]
  apply List.countP_pos_iff.mpr
  exact ⟨TraceEv.write a d, h, by simp⟩

theorem settledIn_settleCnt (T : List TraceEv) (d : Nat)
    (h : settledIn T d) : 1 ≤ settleCnt T d := by
  obtain ⟨ok, r, hm⟩ := h
  apply List.countP_pos_iff.mpr
  exact ⟨TraceEv.settle d ok r, hm, by simp⟩

theorem settleCnt_settledIn (T : List TraceEv) (d : Nat)
    (h : 1 ≤ settleCnt T d) : settledIn T d := by
  obtain ⟨e, hm, he⟩ := List.countP_pos_iff.mp h
  cases e with
  | issue a d2 => simp at he
  | write a d2 => simp at he
  | settle d2 ok r =>
    simp at he
    exact ⟨ok, r, by rw [← he]; exact hm⟩

theorem issueDids_append (T1 T2 : List TraceEv) :
    issueDids (T1 ++ T2) = issueDids T1 ++ issueDids T2 :=
  List.filterMap_append _ _ _

theorem issuedTo_of_mem_issueDids (T : List TraceEv) (d : Nat)
    (h : d ∈ issueDids T) : ∃ a, issuedTo T a d := by
  obtain ⟨e, hm, he⟩ := List.mem_filterMap.mp h
  cases e with
  | issue a d2 =>
    simp at he
    exact ⟨a, by rw [← he]; exact hm⟩
  | write a d2 => simp at he
  | settle d2 ok r => simp at he

theorem mem_issueDids_of_issuedTo (T : List TraceEv) (a : String) (d : Nat)
    (h : issuedTo T a d) : d ∈ issueDids T :=
  List.mem_filterMap.mpr ⟨TraceEv.issue a d, h, rfl⟩

theorem append_singleton_split {T T1 T2 : List TraceEv} {e x : TraceEv}
    (h : T ++ [e] = T1 ++ x :: T2) :
    (T1 = T ∧ x = e ∧ T2 = []) ∨ (∃ T2p, T2 = T2p ++ [e] ∧ T = T1 ++ x :: T2p) := by
  rcases List.eq_nil_or_concat T2 with rfl | ⟨T2p, t2l, rfl⟩
  · left
    have hlen : T.length = T1.length := by
      have := congrArg List.length h
      simp at this
      omega
    have h2 := List.append_inj h hlen
    exact ⟨h2.1.symm, by simpa using h2.2.symm, rfl⟩
  · right
    have h2 : T ++ [e] = (T1 ++ x :: T2p) ++ [t2l] := by
      rw [h]; simp
    have hlen : T.length = (T1 ++ x :: T2p).length := by
      have hl := congrArg List.length h2
      simp only [List.length_append, List.length_cons] at hl ⊢
      omega
    have h3 := List.append_inj h2 hlen
    have h4 : e = t2l := by simpa using h3.2
    exact ⟨T2p, by rw [List.concat_eq_append, h4], h3.1⟩

theorem orderOk_append_nonwrite {T : List TraceEv} (hT : OrderOk T) (e : TraceEv)
    (he : ∀ a d, e ≠ TraceEv.write a d) : OrderOk (T ++ [e]) := by
  intro T1 a d2 T2 heq d1 hd hiss
  rcases append_singleton_split heq with ⟨rfl, hx, rfl⟩ | ⟨T2p, rfl, hTeq⟩
  · exact absurd hx.symm (he a d2)
  · have hold := hT T1 a d2 T2p hTeq d1 hd hiss
    refine ⟨hold.1, ?_⟩
    intro a2 hmem
    rcases List.mem_append.mp hmem with hmem | hmem
    · exact hold.2 a2 hmem
    · simp at hmem
      exact he a2 d1 hmem.symm

theorem orderOk_append_settles {T : List TraceEv} (hT : OrderOk T)
    (L : List TraceEv) (hL : ∀ e ∈ L, ∀ a d, e ≠ TraceEv.write a d) :
    OrderOk (T ++ L) := by
  induction L generalizing T with
  | nil => simpa using hT
  | cons e L ih =>
    have h1 : T ++ e :: L = (T ++ [e]) ++ L := by simp
    rw [h1]
    exact ih (orderOk_append_nonwrite hT e (hL e (by simp)))
      (fun x hx => hL x (by simp [hx]))

theorem orderOk_append_write {T : List TraceEv} (a : String) (d2 : Nat) (hT : OrderOk T)
    (H1 : ∀ d1, d1 < d2 → issuedTo T a d1 → settledIn T d1)
    (H3 : settleCnt T d2 = 0) :
    OrderOk (T ++ [TraceEv.write a d2]) := by
  intro T1 a2 d2b T2 heq d1 hd hiss
  rcases append_singleton_split heq with ⟨rfl, hx, rfl⟩ | ⟨T2p, rfl, hTeq⟩
  · cases hx
    exact ⟨H1 d1 hd hiss, by simp⟩
  · have hold := hT T1 a2 d2b T2p hTeq d1 hd hiss
    refine ⟨hold.1, ?_⟩
    intro a3 hmem
    rcases List.mem_append.mp hmem with hmem | hmem
    · exact hold.2 a3 hmem
    · simp at hmem
      obtain ⟨rfl, rfl⟩ := hmem
      have hsettled : settledIn T d1 := by
        obtain ⟨ok, r, hm⟩ := hold.1
        exact ⟨ok, r, by rw [hTeq]; exact List.mem_append_left _ hm⟩
      have := settledIn_settleCnt T d1 hsettled
      omega

theorem mapHas_eq_true_iff (m : List (String × Nat)) (k : String) :
    mapHas m k = true ↔ ∃ q ∈ m, q.1 = k := by
  simp [mapHas]

theorem mapHas_append_one (m : List (String × Nat)) (x : String × Nat) (k : String)
    (h : mapHas m k = true) : mapHas (m ++ [x]) k = true := by
  rw [mapHas_eq_true_iff] at h ⊢
  obtain ⟨q, hq, hqk⟩ := h
  exact ⟨q, List.mem_append_left _ hq, hqk⟩

theorem issuedTo_append_write {T : List TraceEv} {a2 : String} {d2 : Nat} (a : String) (d : Nat)
    (h : issuedTo (T ++ [TraceEv.write a d]) a2 d2) : issuedTo T a2 d2 := by
  unfold issuedTo at h ⊢
  rcases List.mem_append.mp h with h | h
  · exact h
  · simp at h

/-- The invariant is preserved when `flushPendingRequests` sends the head
pending request of an actor with no in-flight request: the request moves
from the queue to the in-flight map and its `write` lands on the wire. -/
theorem invOn_write_step (K L2 : List (Request × Nat)) (req : Request) (d : Nat)
    (act : List (String × Nat)) (T : List TraceEv) (n : Nat) (cr : Bool)
    (hI : InvOn (K ++ (req, d) :: L2) act T n true cr)
    (h1 : mapHas act (req.toActor.getD "") = false)
    (hK : ∀ p ∈ K, mapHas act (p.1.toActor.getD "") = true) :
    InvOn (K ++ L2) (act ++ [(req.toActor.getD "", d)])
      (T ++ [TraceEv.write (req.toActor.getD "") d]) n true cr := by
  set a := req.toActor.getD "" with ha
  have hmemHead : (req, d) ∈ K ++ (req, d) :: L2 := by simp
  have hdIss := hI.pendIssued _ hmemHead
  have hdLt := hI.pendLt _ hmemHead
  have hdUnw := hI.pendUnwritten _ hmemHead
  have hdUns := hI.pendUnsettled _ hmemHead
  have hdPos : 1 ≤ d := (hI.issueBounds _ _ hdIss.2).1
  have hnotK : ∀ q ∈ act, q.1 ≠ a := by
    intro q hq hqa
    have hh : mapHas act a = true := (mapHas_eq_true_iff act a).mpr ⟨q, hq, hqa⟩
    rw [h1] at hh
    exact Bool.false_ne_true hh
  have hdNotAct : ∀ q ∈ act, d ≠ q.2 := fun q hq => hI.pendActiveDisj _ hmemHead q hq
  have hsub : ∀ p, p ∈ K ++ L2 → p ∈ K ++ (req, d) :: L2 := by
    intro p hp
    rcases List.mem_append.mp hp with h | h
    · exact List.mem_append_left _ h
    · exact List.mem_append_right _ (List.mem_cons_of_mem _ h)
  have hmapsnd : List.map Prod.snd (K ++ (req, d) :: L2)
      = List.map Prod.snd K ++ d :: List.map Prod.snd L2 := by simp
  have hpendNodupD : (List.map Prod.snd (K ++ (req, d) :: L2)).Nodup :=
    hI.pendIncr.imp (fun h => Nat.ne_of_lt h)
  have hpNe : ∀ p ∈ K ++ L2, p.2 ≠ d := by
    intro p hp hpd
    have h2 := hpendNodupD
    rw [hmapsnd] at h2
    rcases List.mem_append.mp hp with h | h
    · have hmem : d ∈ List.map Prod.snd K := by
        rw [← hpd]; exact List.mem_map_of_mem _ h
      have := (List.nodup_append.mp h2).2.2
      exact this hmem (List.mem_cons_self _ _)
    · have hmem : d ∈ List.map Prod.snd L2 := by
        rw [← hpd]; exact List.mem_map_of_mem _ h
      have h3 := (List.nodup_append.mp h2).2.1
      rw [List.nodup_cons] at h3
      exact h3.1 hmem
  have hDlt : ∀ p ∈ L2, d < p.2 := by
    intro p hp
    have h2 := hI.pendIncr
    rw [hmapsnd] at h2
    have h3 := (List.pairwise_append.mp h2).2.1
    rw [List.pairwise_cons] at h3
    exact h3.1 _ (List.mem_map_of_mem _ hp)
  have hmemTransfer : ∀ p, p ∈ K ++ (req, d) :: L2 → p.2 ≠ d → p ∈ K ++ L2 := by
    intro p hp hne
    rcases List.mem_append.mp hp with h | h
    · exact List.mem_append_left _ h
    · rcases List.mem_cons.mp h with h | h
      · rw [h] at hne; exact absurd rfl hne
      · exact List.mem_append_right _ h
  have hIssPres : ∀ a2 d2, issuedTo T a2 d2
      → issuedTo (T ++ [TraceEv.write a d]) a2 d2 :=
    fun a2 d2 h => List.mem_append_left _ h
  have hWritePres : ∀ a2 d2, writtenTo T a2 d2
      → writtenTo (T ++ [TraceEv.write a d]) a2 d2 :=
    fun a2 d2 h => List.mem_append_left _ h
  have hSettleEq : ∀ d2, settleCnt (T ++ [TraceEv.write a d]) d2 = settleCnt T d2 := by
    intro d2
    rw [settleCnt_append, settleCnt_write]
    omega
  have hWriteEq : ∀ d2, d2 ≠ d → writeCnt (T ++ [TraceEv.write a d]) d2 = writeCnt T d2 := by
    intro d2 hne
    rw [writeCnt_append, writeCnt_write, if_neg (fun h => hne h.symm)]
    omega
  exact {
    connTrue := rfl
    noCrash := hI.noCrash
    nextPos := hI.nextPos
    activeNodup := by
      rw [List.map_append]
      rw [List.nodup_append]
      refine ⟨hI.activeNodup, by simp, ?_⟩
      intro x hx hy
      simp at hy
      subst hy
      obtain ⟨q, hq, hqa⟩ := List.mem_map.mp hx
      exact hnotK q hq hqa
    activeDidsNodup := by
      rw [List.map_append]
      rw [List.nodup_append]
      refine ⟨hI.activeDidsNodup, by simp, ?_⟩
      intro x hx hy
      simp at hy
      subst hy
      obtain ⟨q, hq, hqd⟩ := List.mem_map.mp hx
      exact hdNotAct q hq hqd.symm
    pendIncr := by
      have hsl : (K ++ L2).Sublist (K ++ (req, d) :: L2) :=
        List.Sublist.append_left (List.sublist_cons_self _ _) K
      exact hI.pendIncr.sublist (hsl.map _)
    pendLt := fun p hp => hI.pendLt p (hsub p hp)
    activeLt := by
      intro q hq
      rcases List.mem_append.mp hq with h | h
      · exact hI.activeLt q h
      · simp at h
        rw [h]
        exact hdLt
    pendIssued := by
      intro p hp
      have h := hI.pendIssued p (hsub p hp)
      exact ⟨h.1, hIssPres _ _ h.2⟩
    pendUnwritten := by
      intro p hp
      rw [hWriteEq p.2 (hpNe p hp)]
      exact hI.pendUnwritten p (hsub p hp)
    pendUnsettled := by
      intro p hp
      rw [hSettleEq]
      exact hI.pendUnsettled p (hsub p hp)
    pendActiveDisj := by
      intro p hp q hq
      rcases List.mem_append.mp hq with h | h
      · exact hI.pendActiveDisj p (hsub p hp) q h
      · simp at h
        rw [h]
        exact hpNe p hp
    activeRoot := by
      intro q hq h0
      rcases List.mem_append.mp hq with h | h
      · exact hI.activeRoot q h h0
      · simp at h
        rw [h] at h0
        omega
    activeIssued := by
      intro q hq
      rcases List.mem_append.mp hq with h | h
      · rcases hI.activeIssued q h with h2 | h2
        · exact Or.inl h2
        · exact Or.inr ⟨hIssPres _ _ h2.1, hWritePres _ _ h2.2⟩
      · simp at h
        rw [h]
        refine Or.inr ⟨hIssPres _ _ hdIss.2, ?_⟩
        exact List.mem_append_right _ (by simp)
    activeUnsettled := by
      intro q hq
      rcases List.mem_append.mp hq with h | h
      · rcases hI.activeUnsettled q h with h2 | h2
        · exact Or.inl h2
        · right; rw [hSettleEq]; exact h2
      · simp at h
        rw [h]
        right
        rw [hSettleEq]
        exact hdUns
    issueBounds := by
      intro a2 d2 h
      exact hI.issueBounds a2 d2 (issuedTo_append_write a d h)
    issueFun := by
      intro a2 a3 d2 h2 h3
      exact hI.issueFun a2 a3 d2 (issuedTo_append_write a d h2) (issuedTo_append_write a d h3)
    issueMono := by
      rw [issueDids_append]
      have : issueDids [TraceEv.write a d] = [] := by simp [issueDids]
      rw [this, List.append_nil]
      exact hI.issueMono
    writeIssued := by
      intro a2 d2 h
      unfold writtenTo at h
      rcases List.mem_append.mp h with h | h
      · exact hIssPres _ _ (hI.writeIssued a2 d2 h)
      · simp at h
        obtain ⟨rfl, rfl⟩ := h
        exact hIssPres _ _ hdIss.2
    writeOnce := by
      intro d2
      by_cases hd2 : d2 = d
      · subst hd2
        rw [writeCnt_append, writeCnt_write, if_pos rfl, hdUnw]
      · rw [hWriteEq d2 hd2]
        exact hI.writeOnce d2
    settleOnce := by
      intro d2 h
      rw [hSettleEq]
      exact hI.settleOnce d2 h
    settleIssued := by
      intro d2 h hc
      rw [hSettleEq] at hc
      obtain ⟨a2, ha2⟩ := hI.settleIssued d2 h hc
      exact ⟨a2, hIssPres _ _ ha2⟩
    trich := by
      intro a2 d2 h
      have h0 := issuedTo_append_write a d h
      rcases hI.trich a2 d2 h0 with ⟨p, hp, hpd⟩ | h2 | h2
      · by_cases hdd : d2 = d
        · subst hdd
          have ha2a : a2 = a := hI.issueFun a2 a d2 h0 hdIss.2
          right; left
          rw [ha2a]
          exact List.mem_append_right _ (by simp)
        · left
          exact ⟨p, hmemTransfer p hp (by rw [hpd]; exact hdd), hpd⟩
      · right; left
        exact List.mem_append_left _ h2
      · right; right
        rw [hSettleEq]
        exact h2
    ordOk := by
      apply orderOk_append_write a d hI.ordOk
      · intro d1 hlt hiss1
        rcases hI.trich a d1 hiss1 with ⟨p, hp, hpd⟩ | h2 | h2
        · exfalso
          have hpact : p.1.toActor.getD "" = a := by
            have h3 := (hI.pendIssued p hp).2
            rw [hpd] at h3
            exact hI.issueFun _ _ _ h3 hiss1
          rcases List.mem_append.mp hp with h | h
          · have := hK p h
            rw [hpact, h1] at this
            exact Bool.false_ne_true this
          · rcases List.mem_cons.mp h with h | h
            · rw [h] at hpd
              simp at hpd
              omega
            · have := hDlt p h
              omega
        · exfalso
          have h3 := hI.activeIssued _ h2
          rcases h3 with h3 | h3
          · have := (hI.issueBounds _ _ hiss1).1
            omega
          · have hh : mapHas act a = true :=
              (mapHas_eq_true_iff act a).mpr ⟨(a, d1), h2, rfl⟩
            rw [h1] at hh
            exact Bool.false_ne_true hh
        · exact settleCnt_settledIn T d1 (by omega)
      · exact hdUns }

/-- Running the flush pass from a state satisfying the invariant never
throws, keeps the invariant, and only appends `write` events; `K` carries
the entries already kept earlier in the pass (their actors all have an
in-flight request). -/
theorem flushAux_inv :
    ∀ (L K : List (Request × Nat)) (s : ClientState),
      s.hasConnection = true →
      InvOn (K ++ L) s.activeRequests s.trace s.nextId true s.crashed →
      (∀ p ∈ K, mapHas s.activeRequests (p.1.toActor.getD "") = true) →
      ∃ kept s2,
        flushAux s L = (kept, s2, false) ∧
        InvOn (K ++ kept) s2.activeRequests s2.trace s2.nextId true s2.crashed ∧
        (∀ p ∈ K ++ kept, mapHas s2.activeRequests (p.1.toActor.getD "") = true) ∧
        s2.hasConnection = true ∧
        s2.crashed = s.crashed ∧
        s2.nextId = s.nextId ∧
        s2.pendingRequests = s.pendingRequests ∧
        s2.incomingData = s.incomingData ∧
        s2.decoded = s.decoded ∧
        s2.listenersRemoved = s.listenersRemoved ∧
        s2.ended = s.ended ∧
        s2.emitted = s.emitted := by
  intro L
  induction L with
  | nil =>
    intro K s hconn hI hK
    exact ⟨[], s, rfl, by simpa using hI, by simpa using hK, hconn,
      rfl, rfl, rfl, rfl, rfl, rfl, rfl, rfl⟩
  | cons p L2 ih =>
    intro K s hconn hI hK
    obtain ⟨req, d⟩ := p
    by_cases h1 : mapHas s.activeRequests (req.toActor.getD "")
    · have hI2 : InvOn ((K ++ [(req, d)]) ++ L2) s.activeRequests s.trace
          s.nextId true s.crashed := by
        rw [show (K ++ [(req, d)]) ++ L2 = K ++ (req, d) :: L2 by simp]
        exact hI
      have hK2 : ∀ q ∈ K ++ [(req, d)],
          mapHas s.activeRequests (q.1.toActor.getD "") = true := by
        intro q hq
        rcases List.mem_append.mp hq with h | h
        · exact hK q h
        · simp at h; rw [h]; exact h1
      obtain ⟨kept, s2, heq, hI3, hK3, hrest⟩ := ih (K ++ [(req, d)]) s hconn hI2 hK2
      refine ⟨(req, d) :: kept, s2, ?_, ?_, ?_, hrest⟩
      · simp only [flushAux, h1, if_true]
        rw [heq]
      · rw [show K ++ (req, d) :: kept = (K ++ [(req, d)]) ++ kept by simp]
        exact hI3
      · intro q hq
        apply hK3
        rw [show (K ++ [(req, d)]) ++ kept = K ++ (req, d) :: kept by simp]
        exact hq
    · have h1f : mapHas s.activeRequests (req.toActor.getD "") = false := by
        simpa using h1
      have hstep : flushAux s ((req, d) :: L2)
          = flushAux (expectReply (writeReq s (req.toActor.getD "") d)
              (req.toActor.getD "") d) L2 := by
        simp [flushAux, h1f, hconn]
      have hs1 : expectReply (writeReq s (req.toActor.getD "") d) (req.toActor.getD "") d
          = { s with
              activeRequests := s.activeRequests ++ [(req.toActor.getD "", d)]
              trace := s.trace ++ [TraceEv.write (req.toActor.getD "") d] } := by
        simp [expectReply, writeReq, h1f]
      have hI2 : InvOn (K ++ L2)
          (s.activeRequests ++ [(req.toActor.getD "", d)])
          (s.trace ++ [TraceEv.write (req.toActor.getD "") d])
          s.nextId true s.crashed :=
        invOn_write_step K L2 req d s.activeRequests s.trace s.nextId s.crashed hI h1f hK
      have hK2 : ∀ p ∈ K,
          mapHas (s.activeRequests ++ [(req.toActor.getD "", d)])
            (p.1.toActor.getD "") = true :=
        fun p hp => mapHas_append_one _ _ _ (hK p hp)
      obtain ⟨kept, s2, heq, hI3, hK3, hc1, hc2, hc3, hc4, hc5, hc6, hc7, hc8, hc9⟩ :=
        ih K
          { s with
            activeRequests := s.activeRequests ++ [(req.toActor.getD "", d)]
            trace := s.trace ++ [TraceEv.write (req.toActor.getD "") d] }
          hconn hI2 hK2
      refine ⟨kept, s2, ?_, hI3, hK3, hc1, hc2, hc3, hc4, hc5, hc6, hc7, hc8, hc9⟩
      rw [hstep, hs1]
      exact heq

theorem writeCnt_writtenTo (T : List TraceEv) (d : Nat)
    (h : 1 ≤ writeCnt T d) : ∃ a, writtenTo T a d := by
  obtain ⟨e, hm, he⟩ := List.countP_pos_iff.mp h
  cases e with
  | issue a d2 => simp at he
  | write a d2 =>
    simp at he
    exact ⟨a, by rw [← he]; exact hm⟩
  | settle d2 ok r => simp at he

/-- The invariant is preserved when `request()` allocates a fresh deferred
and appends the request to the pending queue with its `issue` event. -/
theorem invOn_issue_step (pend : List (Request × Nat)) (act : List (String × Nat))
    (T : List TraceEv) (n : Nat) (cr : Bool) (req : Request)
    (hI : InvOn pend act T n true cr) (hne : req.toActor.getD "" ≠ "") :
    InvOn (pend ++ [(req, n)]) act (T ++ [TraceEv.issue (req.toActor.getD "") n])
      (n + 1) true cr := by
  set a := req.toActor.getD "" with ha
  have hIssMem : ∀ a2 d2, issuedTo (T ++ [TraceEv.issue a n]) a2 d2
      ↔ issuedTo T a2 d2 ∨ (a2 = a ∧ d2 = n) := by
    intro a2 d2
    unfold issuedTo
    rw [List.mem_append]
    simp [eq_comm, and_comm]
  have hWriteEq : ∀ d2, writeCnt (T ++ [TraceEv.issue a n]) d2 = writeCnt T d2 := by
    intro d2
    rw [writeCnt_append, writeCnt_issue]
    omega
  have hSettleEq : ∀ d2, settleCnt (T ++ [TraceEv.issue a n]) d2 = settleCnt T d2 := by
    intro d2
    rw [settleCnt_append, settleCnt_issue]
    omega
  have hWritePres : ∀ a2 d2, writtenTo (T ++ [TraceEv.issue a n]) a2 d2
      ↔ writtenTo T a2 d2 := by
    intro a2 d2
    unfold writtenTo
    rw [List.mem_append]
    simp
  have hnFreshW : writeCnt T n = 0 := by
    by_contra h
    obtain ⟨a2, ha2⟩ := writeCnt_writtenTo T n (by omega)
    have := hI.issueBounds a2 n (hI.writeIssued a2 n ha2)
    omega
  have hnFreshS : settleCnt T n = 0 := by
    by_contra h
    obtain ⟨a2, ha2⟩ := hI.settleIssued n hI.nextPos (by omega)
    have := hI.issueBounds a2 n ha2
    omega
  have hnFreshI : ∀ a2, ¬ issuedTo T a2 n := by
    intro a2 h
    have := hI.issueBounds a2 n h
    omega
  exact {
    connTrue := rfl
    noCrash := hI.noCrash
    nextPos := by omega
    activeNodup := hI.activeNodup
    activeDidsNodup := hI.activeDidsNodup
    pendIncr := by
      rw [List.map_append]
      rw [List.pairwise_append]
      refine ⟨hI.pendIncr, by simp, ?_⟩
      intro x hx y hy
      simp at hy
      subst hy
      obtain ⟨q, hq, rfl⟩ := List.mem_map.mp hx
      exact hI.pendLt q hq
    pendLt := by
      intro p hp
      rcases List.mem_append.mp hp with h | h
      · have := hI.pendLt p h; omega
      · simp at h; rw [h]; omega
    activeLt := by
      intro q hq
      have := hI.activeLt q hq
      omega
    pendIssued := by
      intro p hp
      rcases List.mem_append.mp hp with h | h
      · have h2 := hI.pendIssued p h
        exact ⟨h2.1, (hIssMem _ _).mpr (Or.inl h2.2)⟩
      · simp at h
        rw [h]
        exact ⟨hne, (hIssMem _ _).mpr (Or.inr ⟨rfl, rfl⟩)⟩
    pendUnwritten := by
      intro p hp
      rw [hWriteEq]
      rcases List.mem_append.mp hp with h | h
      · exact hI.pendUnwritten p h
      · simp at h; rw [h]; exact hnFreshW
    pendUnsettled := by
      intro p hp
      rw [hSettleEq]
      rcases List.mem_append.mp hp with h | h
      · exact hI.pendUnsettled p h
      · simp at h; rw [h]; exact hnFreshS
    pendActiveDisj := by
      intro p hp q hq
      rcases List.mem_append.mp hp with h | h
      · exact hI.pendActiveDisj p h q hq
      · simp at h
        rw [h]
        have := hI.activeLt q hq
        omega
    activeRoot := hI.activeRoot
    activeIssued := by
      intro q hq
      rcases hI.activeIssued q hq with h | h
      · exact Or.inl h
      · exact Or.inr ⟨(hIssMem _ _).mpr (Or.inl h.1), (hWritePres _ _).mpr h.2⟩
    activeUnsettled := by
      intro q hq
      rcases hI.activeUnsettled q hq with h | h
      · exact Or.inl h
      · right; rw [hSettleEq]; exact h
    issueBounds := by
      intro a2 d2 h
      rcases (hIssMem _ _).mp h with h | h
      · have := hI.issueBounds a2 d2 h; omega
      · rw [h.2]
        have := hI.nextPos
        omega
    issueFun := by
      intro a2 a3 d2 h2 h3
      rcases (hIssMem _ _).mp h2 with h2 | h2 <;> rcases (hIssMem _ _).mp h3 with h3 | h3
      · exact hI.issueFun a2 a3 d2 h2 h3
      · exact absurd h2 (by rw [h3.2]; exact hnFreshI a2)
      · exact absurd h3 (by rw [h2.2]; exact hnFreshI a3)
      · rw [h2.1, h3.1]
    issueMono := by
      rw [issueDids_append]
      have h1 : issueDids [TraceEv.issue a n] = [n] := by simp [issueDids]
      rw [h1, List.pairwise_append]
      refine ⟨hI.issueMono, by simp, ?_⟩
      intro x hx y hy
      simp at hy
      subst hy
      obtain ⟨a2, ha2⟩ := issuedTo_of_mem_issueDids T x hx
      exact (hI.issueBounds a2 x ha2).2
    writeIssued := by
      intro a2 d2 h
      rw [hWritePres] at h
      exact (hIssMem _ _).mpr (Or.inl (hI.writeIssued a2 d2 h))
    writeOnce := by
      intro d2
      rw [hWriteEq]
      exact hI.writeOnce d2
    settleOnce := by
      intro d2 h
      rw [hSettleEq]
      exact hI.settleOnce d2 h
    settleIssued := by
      intro d2 h hc
      rw [hSettleEq] at hc
      obtain ⟨a2, ha2⟩ := hI.settleIssued d2 h hc
      exact ⟨a2, (hIssMem _ _).mpr (Or.inl ha2)⟩
    trich := by
      intro a2 d2 h
      rcases (hIssMem _ _).mp h with h | h
      · rcases hI.trich a2 d2 h with ⟨p, hp, hpd⟩ | h2 | h2
        · exact Or.inl ⟨p, List.mem_append_left _ hp, hpd⟩
        · exact Or.inr (Or.inl h2)
        · right; right; rw [hSettleEq]; exact h2
      · left
        exact ⟨(req, n), List.mem_append_right _ (by simp), h.2.symm⟩
    ordOk := by
      apply orderOk_append_nonwrite hI.ordOk
      intro a2 d2
      simp }

/-- `flushPendingRequests` from an invariant state: the filter never
throws, the invariant holds afterwards, and the data-path fields are
untouched. -/
theorem flushPendingRequests_inv (s : ClientState) (hI : Inv s) :
    ∃ s3, flushPendingRequests s = (s3, false) ∧ Inv s3 ∧
      s3.hasConnection = true ∧ s3.crashed = s.crashed ∧ s3.nextId = s.nextId ∧
      s3.incomingData = s.incomingData ∧ s3.decoded = s.decoded ∧
      s3.listenersRemoved = s.listenersRemoved ∧ s3.ended = s.ended ∧
      s3.emitted = s.emitted := by
  have hIt : InvOn s.pendingRequests s.activeRequests s.trace s.nextId true s.crashed :=
    hI.connTrue ▸ hI
  have hIt2 : InvOn ([] ++ s.pendingRequests) s.activeRequests s.trace s.nextId
      true s.crashed := by simpa using hIt
  obtain ⟨kept, s2, heq, hI3, hK3, hc1, hc2, hc3, hc4, hc5, hc6, hc7, hc8, hc9⟩ :=
    flushAux_inv s.pendingRequests [] s hI.connTrue hIt2 (by simp)
  refine ⟨{ s2 with pendingRequests := kept }, ?_, ?_, hc1, hc2, hc3, hc5, hc6, hc7, hc8, hc9⟩
  · unfold flushPendingRequests
    rw [heq]
    simp
  · show InvOn kept s2.activeRequests s2.trace s2.nextId s2.hasConnection s2.crashed
    rw [hc1]
    simpa using hI3

/-- `request()` from an invariant state preserves the invariant. -/
theorem request_inv (s : ClientState) (p : RequestProps) (hI : Inv s) :
    Inv (request s p).1 := by
  unfold request
  set req : Request := match p with
    | .ofString t => { toActor := some "root", rtype := some t }
    | .ofObject r => r with hreq
  by_cases hto : req.toActor.getD "" = ""
  · simp only [hto, if_pos rfl]
    exact hI
  · simp only [if_neg hto]
    have hIt : InvOn s.pendingRequests s.activeRequests s.trace s.nextId true s.crashed :=
      hI.connTrue ▸ hI
    have hpush := invOn_issue_step s.pendingRequests s.activeRequests s.trace s.nextId
      s.crashed req hIt hto
    have hInv1 : Inv { s with
        nextId := s.nextId + 1
        pendingRequests := s.pendingRequests ++ [(req, s.nextId)]
        trace := s.trace ++ [TraceEv.issue (req.toActor.getD "") s.nextId] } := by
      show InvOn (s.pendingRequests ++ [(req, s.nextId)]) s.activeRequests
        (s.trace ++ [TraceEv.issue (req.toActor.getD "") s.nextId]) (s.nextId + 1)
        s.hasConnection s.crashed
      rw [hI.connTrue]
      exact hpush
    obtain ⟨s3, heq, hI3, _⟩ := flushPendingRequests_inv _ hInv1
    rw [heq]
    simpa using hI3

/-!
# Settle-append lemmas for disconnect and reply handling
-/

theorem issuedTo_append_settles {T : List TraceEv} {a : String} {d : Nat}
    (L : List TraceEv) (hL : ∀ e ∈ L, ∃ d2 ok r, e = TraceEv.settle d2 ok r) :
    issuedTo (T ++ L) a d ↔ issuedTo T a d := by
  unfold issuedTo
  rw [List.mem_append]
  constructor
  · rintro (h | h)
    · exact h
    · obtain ⟨d2, ok, r, he⟩ := hL _ h
      simp at he
  · exact Or.inl

theorem writtenTo_append_settles {T : List TraceEv} {a : String} {d : Nat}
    (L : List TraceEv) (hL : ∀ e ∈ L, ∃ d2 ok r, e = TraceEv.settle d2 ok r) :
    writtenTo (T ++ L) a d ↔ writtenTo T a d := by
  unfold writtenTo
  rw [List.mem_append]
  constructor
  · rintro (h | h)
    · exact h
    · obtain ⟨d2, ok, r, he⟩ := hL _ h
      simp at he
  · exact Or.inl

theorem writeCnt_append_settles (T : List TraceEv) (d : Nat)
    (L : List TraceEv) (hL : ∀ e ∈ L, ∃ d2 ok r, e = TraceEv.settle d2 ok r) :
    writeCnt (T ++ L) d = writeCnt T d := by
  rw [writeCnt_append]
  have h0 : writeCnt L d = 0 := by
    apply List.countP_eq_zero.mpr
    intro e he
    obtain ⟨d2, ok, r, rfl⟩ := hL e he
    simp
  omega

theorem issueDids_append_settles (T : List TraceEv)
    (L : List TraceEv) (hL : ∀ e ∈ L, ∃ d2 ok r, e = TraceEv.settle d2 ok r) :
    issueDids (T ++ L) = issueDids T := by
  rw [issueDids_append]
  have h0 : issueDids L = [] := by
    apply List.eq_nil_iff_forall_not_mem.mpr
    intro d hd
    obtain ⟨a, ha⟩ := issuedTo_of_mem_issueDids L d hd
    obtain ⟨d2, ok, r, he⟩ := hL _ ha
    simp at he
  rw [h0, List.append_nil]

theorem settlesShape (l : List (Request × Nat)) (r : String) :
    ∀ e ∈ l.map (fun q => TraceEv.settle q.2 false r), ∃ d2 ok r2, e = TraceEv.settle d2 ok r2 := by
  intro e he
  obtain ⟨q, hq, rfl⟩ := List.mem_map.mp he
  exact ⟨q.2, false, r, rfl⟩

theorem settlesShapeAct (l : List (String × Nat)) (r : String) :
    ∀ e ∈ l.map (fun q => TraceEv.settle q.2 false r), ∃ d2 ok r2, e = TraceEv.settle d2 ok r2 := by
  intro e he
  obtain ⟨q, hq, rfl⟩ := List.mem_map.mp he
  exact ⟨q.2, false, r, rfl⟩

theorem settleCnt_settles {α : Type} (l : List (α × Nat)) (r : String) (d : Nat) :
    settleCnt (l.map (fun q => TraceEv.settle q.2 false r)) d
      = List.countP (fun q => decide (q.2 = d)) l := by
  unfold settleCnt
  rw [List.countP_map]
  rfl

theorem cntD_le_one {α : Type} (l : List (α × Nat)) (d : Nat)
    (h : (l.map Prod.snd).Nodup) :
    List.countP (fun q => decide (q.2 = d)) l ≤ 1 := by
  induction l with
  | nil => simp
  | cons q l ih =>
    rw [List.map_cons, List.nodup_cons] at h
    by_cases hq : q.2 = d
    · rw [List.countP_cons_of_pos _ _ (by simp [hq])]
      have h0 : List.countP (fun q => decide (q.2 = d)) l = 0 := by
        apply List.countP_eq_zero.mpr
        intro x hx hpx
        simp at hpx
        apply h.1
        rw [hq, ← hpx]
        exact List.mem_map_of_mem _ hx
      omega
    · rw [List.countP_cons_of_neg _ _ (by simp [hq])]
      exact ih h.2

theorem cntD_pos {α : Type} (l : List (α × Nat)) (d : Nat) (q : α × Nat)
    (hq : q ∈ l) (hqd : q.2 = d) :
    1 ≤ List.countP (fun q => decide (q.2 = d)) l :=
  List.countP_pos_iff.mpr ⟨q, hq, by simp [hqd]⟩

theorem cntD_zero {α : Type} (l : List (α × Nat)) (d : Nat)
    (h : ∀ q ∈ l, q.2 ≠ d) :
    List.countP (fun q => decide (q.2 = d)) l = 0 := by
  apply List.countP_eq_zero.mpr
  intro q hq
  simp
  exact h q hq

theorem cntD_one {α : Type} (l : List (α × Nat)) (d : Nat) (q : α × Nat)
    (hq : q ∈ l) (hqd : q.2 = d) (h : (l.map Prod.snd).Nodup) :
    List.countP (fun q => decide (q.2 = d)) l = 1 := by
  have h1 := cntD_le_one l d h
  have h2 := cntD_pos l d q hq hqd
  omega

/-- Appending a settle of the connect deferred (id 0) preserves the
invariant: id 0 is never an issued request. -/
theorem invOn_settle_zero (pend : List (Request × Nat)) (act : List (String × Nat))
    (T : List TraceEv) (n : Nat) (cr : Bool) (ok : Bool) (r : String)
    (hI : InvOn pend act T n true cr) :
    InvOn pend act (T ++ [TraceEv.settle 0 ok r]) n true cr := by
  have hshape : ∀ e ∈ [TraceEv.settle 0 ok r], ∃ d2 ok2 r2, e = TraceEv.settle d2 ok2 r2 :=
    by intro e he; simp at he; exact ⟨0, ok, r, he⟩
  have hSettleEq : ∀ d2, 1 ≤ d2 → settleCnt (T ++ [TraceEv.settle 0 ok r]) d2 = settleCnt T d2 := by
    intro d2 h
    rw [settleCnt_append, settleCnt_settle, if_neg (by omega)]
    omega
  have hIssEq := fun a d => @issuedTo_append_settles T a d _ hshape
  have hWritEq := fun a d => @writtenTo_append_settles T a d _ hshape
  have hWCnt := fun d => writeCnt_append_settles T d _ hshape
  exact {
    connTrue := rfl
    noCrash := hI.noCrash
    nextPos := hI.nextPos
    activeNodup := hI.activeNodup
    activeDidsNodup := hI.activeDidsNodup
    pendIncr := hI.pendIncr
    pendLt := hI.pendLt
    activeLt := hI.activeLt
    pendIssued := fun p hp => ⟨(hI.pendIssued p hp).1, (hIssEq _ _).mpr (hI.pendIssued p hp).2⟩
    pendUnwritten := fun p hp => by rw [hWCnt]; exact hI.pendUnwritten p hp
    pendUnsettled := fun p hp => by
      have hd := (hI.issueBounds _ _ (hI.pendIssued p hp).2).1
      rw [hSettleEq _ hd]
      exact hI.pendUnsettled p hp
    pendActiveDisj := hI.pendActiveDisj
    activeRoot := hI.activeRoot
    activeIssued := fun q hq => by
      rcases hI.activeIssued q hq with h | h
      · exact Or.inl h
      · exact Or.inr ⟨(hIssEq _ _).mpr h.1, (hWritEq _ _).mpr h.2⟩
    activeUnsettled := fun q hq => by
      rcases hI.activeUnsettled q hq with h | h
      · exact Or.inl h
      · by_cases h0 : q.2 = 0
        · exact Or.inl h0
        · right
          rw [hSettleEq _ (by omega)]
          exact h
    issueBounds := fun a d h => hI.issueBounds a d ((hIssEq _ _).mp h)
    issueFun := fun a a2 d h h2 =>
      hI.issueFun a a2 d ((hIssEq _ _).mp h) ((hIssEq _ _).mp h2)
    issueMono := by
      rw [issueDids_append_settles T _ hshape]
      exact hI.issueMono
    writeIssued := fun a d h => (hIssEq _ _).mpr (hI.writeIssued a d ((hWritEq _ _).mp h))
    writeOnce := fun d => by rw [hWCnt]; exact hI.writeOnce d
    settleOnce := fun d h => by rw [hSettleEq _ h]; exact hI.settleOnce d h
    settleIssued := fun d h hc => by
      rw [hSettleEq _ h] at hc
      obtain ⟨a, ha⟩ := hI.settleIssued d h hc
      exact ⟨a, (hIssEq _ _).mpr ha⟩
    trich := fun a d h => by
      have h0 := (hIssEq _ _).mp h
      have hd := (hI.issueBounds _ _ h0).1
      rcases hI.trich a d h0 with h2 | h2 | h2
      · exact Or.inl h2
      · exact Or.inr (Or.inl h2)
      · right; right
        rw [hSettleEq _ hd]
        exact h2
    ordOk := orderOk_append_nonwrite hI.ordOk _ (by simp) }

/-- Resolving (or rejecting) the in-flight request of actor `a` preserves
the invariant: the map entry is removed and its deferred settled once. -/
theorem invOn_resolve_step (pend : List (Request × Nat)) (act : List (String × Nat))
    (T : List TraceEv) (n : Nat) (cr : Bool) (a : String) (dd : Nat)
    (hI : InvOn pend act T n true cr) (hmem : (a, dd) ∈ act) (ok : Bool) (r : String) :
    InvOn pend (mapDelete act a) (T ++ [TraceEv.settle dd ok r]) n true cr := by
  have hshape : ∀ e ∈ [TraceEv.settle dd ok r], ∃ d2 ok2 r2, e = TraceEv.settle d2 ok2 r2 :=
    by intro e he; simp at he; exact ⟨dd, ok, r, he⟩
  have hIssEq := fun a2 d => @issuedTo_append_settles T a2 d _ hshape
  have hWritEq := fun a2 d => @writtenTo_append_settles T a2 d _ hshape
  have hWCnt := fun d => writeCnt_append_settles T d _ hshape
  have hSettleEq : ∀ d2, d2 ≠ dd → settleCnt (T ++ [TraceEv.settle dd ok r]) d2 = settleCnt T d2 := by
    intro d2 h
    rw [settleCnt_append, settleCnt_settle, if_neg (fun hh => h hh.symm)]
    omega
  have hSettleDd : settleCnt (T ++ [TraceEv.settle dd ok r]) dd = settleCnt T dd + 1 := by
    rw [settleCnt_append, settleCnt_settle, if_pos rfl]
  have hinj := List.inj_on_of_nodup_map hI.activeDidsNodup
  have hdel : ∀ q, q ∈ mapDelete act a → q ∈ act ∧ q.1 ≠ a := by
    intro q hq
    unfold mapDelete at hq
    have h2 := List.mem_filter.mp hq
    refine ⟨h2.1, ?_⟩
    have := h2.2
    simp at this
    exact this
  have hdelsub : (mapDelete act a).Sublist act := List.filter_sublist act
  have hdelNe : ∀ q, q ∈ mapDelete act a → q.2 ≠ dd := by
    intro q hq hqd
    have h2 := hdel q hq
    have : q = (a, dd) := hinj h2.1 hmem (by simpa using hqd)
    rw [this] at h2
    exact h2.2 rfl
  have hpendNe : ∀ p ∈ pend, p.2 ≠ dd := fun p hp => hI.pendActiveDisj p hp (a, dd) hmem
  exact {
    connTrue := rfl
    noCrash := hI.noCrash
    nextPos := hI.nextPos
    activeNodup := hI.activeNodup.sublist (hdelsub.map _)
    activeDidsNodup := hI.activeDidsNodup.sublist (hdelsub.map _)
    pendIncr := hI.pendIncr
    pendLt := hI.pendLt
    activeLt := fun q hq => hI.activeLt q (hdel q hq).1
    pendIssued := fun p hp => ⟨(hI.pendIssued p hp).1, (hIssEq _ _).mpr (hI.pendIssued p hp).2⟩
    pendUnwritten := fun p hp => by rw [hWCnt]; exact hI.pendUnwritten p hp
    pendUnsettled := fun p hp => by
      rw [hSettleEq _ (hpendNe p hp)]
      exact hI.pendUnsettled p hp
    pendActiveDisj := fun p hp q hq => hI.pendActiveDisj p hp q (hdel q hq).1
    activeRoot := fun q hq => hI.activeRoot q (hdel q hq).1
    activeIssued := fun q hq => by
      rcases hI.activeIssued q (hdel q hq).1 with h | h
      · exact Or.inl h
      · exact Or.inr ⟨(hIssEq _ _).mpr h.1, (hWritEq _ _).mpr h.2⟩
    activeUnsettled := fun q hq => by
      rcases hI.activeUnsettled q (hdel q hq).1 with h | h
      · exact Or.inl h
      · right
        rw [hSettleEq _ (hdelNe q hq)]
        exact h
    issueBounds := fun a2 d h => hI.issueBounds a2 d ((hIssEq _ _).mp h)
    issueFun := fun a2 a3 d h h2 =>
      hI.issueFun a2 a3 d ((hIssEq _ _).mp h) ((hIssEq _ _).mp h2)
    issueMono := by
      rw [issueDids_append_settles T _ hshape]
      exact hI.issueMono
    writeIssued := fun a2 d h => (hIssEq _ _).mpr (hI.writeIssued a2 d ((hWritEq _ _).mp h))
    writeOnce := fun d => by rw [hWCnt]; exact hI.writeOnce d
    settleOnce := fun d h => by
      by_cases hd : d = dd
      · subst hd
        rw [hSettleDd]
        rcases hI.activeUnsettled (a, d) hmem with h2 | h2
        · simp at h2; omega
        · simp at h2; omega
      · rw [hSettleEq _ hd]
        exact hI.settleOnce d h
    settleIssued := fun d h hc => by
      by_cases hd : d = dd
      · subst hd
        rcases hI.activeIssued (a, d) hmem with h2 | h2
        · simp at h2; omega
        · exact ⟨a, (hIssEq _ _).mpr h2.1⟩
      · rw [hSettleEq _ hd] at hc
        obtain ⟨a2, ha2⟩ := hI.settleIssued d h hc
        exact ⟨a2, (hIssEq _ _).mpr ha2⟩
    trich := fun a2 d h => by
      have h0 := (hIssEq _ _).mp h
      have hd1 := (hI.issueBounds _ _ h0).1
      rcases hI.trich a2 d h0 with ⟨p, hp, hpd⟩ | h2 | h2
      · left
        exact ⟨p, hp, hpd⟩
      · by_cases ha2a : a2 = a
        · subst ha2a
          -- the deleted entry: its deferred is settled now
          have hdda : (a2, d) = (a2, dd) := by
            have hk := List.inj_on_of_nodup_map hI.activeNodup
            exact hk h2 hmem rfl
          have hddd : d = dd := by simpa using hdda
          subst hddd
          right; right
          rw [hSettleDd]
          rcases hI.activeUnsettled (a2, d) hmem with h3 | h3
          · simp at h3
            omega
          · simp at h3
            omega
        · right; left
          unfold mapDelete
          apply List.mem_filter.mpr
          exact ⟨h2, by simp [ha2a]⟩
      · right; right
        have hd : d ≠ dd := by
          intro hdd2
          subst hdd2
          rcases hI.activeUnsettled (a, d) hmem with h3 | h3
          · simp at h3; omega
          · simp at h3; omega
        rw [hSettleEq _ hd]
        exact h2
    ordOk := orderOk_append_nonwrite hI.ordOk _ (by simp) }

theorem disconnect_eq (s : ClientState) (hconn : s.hasConnection = true) :
    disconnect s = { s with
      listenersRemoved := true
      ended := true
      activeRequests := []
      pendingRequests := []
      trace := s.trace
        ++ s.activeRequests.map (fun q => TraceEv.settle q.2 false "RDP connection closed")
        ++ s.pendingRequests.map (fun q => TraceEv.settle q.2 false "RDP connection closed") } := by
  unfold disconnect
  rw [if_neg (by simp [hconn])]
  rw [rejectAllRequests_eq]

/-- Clearing both queues while rejecting every entry once (what
`rejectAllRequests` does) preserves the invariant. -/
theorem invOn_clear (pend : List (Request × Nat)) (act : List (String × Nat))
    (T : List TraceEv) (n : Nat) (cr : Bool) (r : String)
    (hI : InvOn pend act T n true cr) :
    InvOn ([] : List (Request × Nat)) ([] : List (String × Nat))
      (T ++ act.map (fun q => TraceEv.settle q.2 false r)
        ++ pend.map (fun q => TraceEv.settle q.2 false r)) n true cr := by
  set A := act.map (fun q => TraceEv.settle q.2 false r) with hA
  set P := pend.map (fun q => TraceEv.settle q.2 false r) with hP
  have hT2 : T ++ A ++ P = T ++ (A ++ P) := by rw [List.append_assoc]
  have hshape : ∀ e ∈ A ++ P, ∃ d2 ok2 r2, e = TraceEv.settle d2 ok2 r2 := by
    intro e he
    rcases List.mem_append.mp he with h | h
    · exact settlesShapeAct act r e h
    · exact settlesShape pend r e h
  have hIssEq : ∀ a d, issuedTo (T ++ A ++ P) a d ↔ issuedTo T a d := by
    intro a d
    rw [hT2]
    exact issuedTo_append_settles _ hshape
  have hWritEq : ∀ a d, writtenTo (T ++ A ++ P) a d ↔ writtenTo T a d := by
    intro a d
    rw [hT2]
    exact writtenTo_append_settles _ hshape
  have hWCnt : ∀ d, writeCnt (T ++ A ++ P) d = writeCnt T d := by
    intro d
    rw [hT2]
    exact writeCnt_append_settles T d _ hshape
  have hSCnt : ∀ d, settleCnt (T ++ A ++ P) d
      = settleCnt T d + List.countP (fun q => decide (q.2 = d)) act
        + List.countP (fun q => decide (q.2 = d)) pend := by
    intro d
    rw [settleCnt_append, settleCnt_append, settleCnt_settles, settleCnt_settles]
  have hpendNodupD : (pend.map Prod.snd).Nodup :=
    hI.pendIncr.imp (fun h => Nat.ne_of_lt h)
  exact {
    connTrue := rfl
    noCrash := hI.noCrash
    nextPos := hI.nextPos
    activeNodup := by simp
    activeDidsNodup := by simp
    pendIncr := by simp
    pendLt := by simp
    activeLt := by simp
    pendIssued := by simp
    pendUnwritten := by simp
    pendUnsettled := by simp
    pendActiveDisj := by simp
    activeRoot := by simp
    activeIssued := by simp
    activeUnsettled := by simp
    issueBounds := fun a d h => hI.issueBounds a d ((hIssEq _ _).mp h)
    issueFun := fun a a2 d h h2 =>
      hI.issueFun a a2 d ((hIssEq _ _).mp h) ((hIssEq _ _).mp h2)
    issueMono := by
      rw [hT2, issueDids_append_settles T _ hshape]
      exact hI.issueMono
    writeIssued := fun a d h => (hIssEq _ _).mpr (hI.writeIssued a d ((hWritEq _ _).mp h))
    writeOnce := fun d => by rw [hWCnt]; exact hI.writeOnce d
    settleOnce := by
      intro d h
      rw [hSCnt]
      by_cases hact : ∃ q ∈ act, q.2 = d
      · obtain ⟨q, hq, hqd⟩ := hact
        have h1 : settleCnt T d = 0 := by
          rcases hI.activeUnsettled q hq with h2 | h2
          · omega
          · rw [← hqd]; exact h2
        have h2 := cntD_one act d q hq hqd hI.activeDidsNodup
        have h3 : List.countP (fun q => decide (q.2 = d)) pend = 0 := by
          apply cntD_zero
          intro p hp hpd
          exact hI.pendActiveDisj p hp q hq (by rw [hpd, hqd])
        omega
      · push_neg at hact
        have h2 : List.countP (fun q => decide (q.2 = d)) act = 0 :=
          cntD_zero act d hact
        by_cases hpend : ∃ p ∈ pend, p.2 = d
        · obtain ⟨p, hp, hpd⟩ := hpend
          have h1 : settleCnt T d = 0 := by rw [← hpd]; exact hI.pendUnsettled p hp
          have h3 := cntD_one pend d p hp hpd hpendNodupD
          omega
        · push_neg at hpend
          have h3 : List.countP (fun q => decide (q.2 = d)) pend = 0 :=
            cntD_zero pend d hpend
          have := hI.settleOnce d h
          omega
    settleIssued := by
      intro d h hc
      rw [hSCnt] at hc
      by_cases h1 : 1 ≤ settleCnt T d
      · obtain ⟨a, ha⟩ := hI.settleIssued d h h1
        exact ⟨a, (hIssEq _ _).mpr ha⟩
      · by_cases h2 : 1 ≤ List.countP (fun q => decide (q.2 = d)) act
        · obtain ⟨q, hq, hqd⟩ := List.countP_pos_iff.mp
            (show 0 < List.countP (fun q => decide (q.2 = d)) act by omega)
          simp at hqd
          rcases hI.activeIssued q hq with h3 | h3
          · omega
          · exact ⟨q.1, (hIssEq _ _).mpr (by rw [← hqd]; exact h3.1)⟩
        · obtain ⟨p, hp, hpd⟩ := List.countP_pos_iff.mp
            (show 0 < List.countP (fun q => decide (q.2 = d)) pend by omega)
          simp at hpd
          have h4 := (hI.pendIssued p hp).2
          exact ⟨p.1.toActor.getD "", (hIssEq _ _).mpr (by rw [← hpd]; exact h4)⟩
    trich := by
      intro a d h
      have h0 := (hIssEq _ _).mp h
      have hd1 := (hI.issueBounds _ _ h0).1
      right; right
      rw [hSCnt]
      rcases hI.trich a d h0 with ⟨p, hp, hpd⟩ | h2 | h2
      · have h1 : settleCnt T d = 0 := by rw [← hpd]; exact hI.pendUnsettled p hp
        have h3 := cntD_one pend d p hp hpd hpendNodupD
        have h4 : List.countP (fun q => decide (q.2 = d)) act = 0 := by
          apply cntD_zero
          intro q hq hqd
          exact hI.pendActiveDisj p hp q hq (by rw [hpd, hqd])
        omega
      · have h1 : settleCnt T d = 0 := by
          rcases hI.activeUnsettled (a, d) h2 with h3 | h3
          · simp at h3; omega
          · exact h3
        have h3 := cntD_one act d (a, d) h2 rfl hI.activeDidsNodup
        have h4 : List.countP (fun q => decide (q.2 = d)) pend = 0 := by
          apply cntD_zero
          intro p hp hpd
          exact hI.pendActiveDisj p hp (a, d) h2 hpd
        omega
      · have h3 : List.countP (fun q => decide (q.2 = d)) act = 0 := by
          apply cntD_zero
          intro q hq hqd
          rcases hI.activeUnsettled q hq with h4 | h4
          · omega
          · rw [hqd] at h4; omega
        have h4 : List.countP (fun q => decide (q.2 = d)) pend = 0 := by
          apply cntD_zero
          intro p hp hpd
          have := hI.pendUnsettled p hp
          rw [hpd] at this
          omega
        omega
    ordOk := by
      rw [hT2]
      apply orderOk_append_settles hI.ordOk
      intro e he
      obtain ⟨d2, ok2, r2, rfl⟩ := hshape e he
      simp }

theorem disconnect_inv (s : ClientState) (hI : Inv s) : Inv (disconnect s) := by
  rw [disconnect_eq s hI.connTrue]
  show InvOn ([] : List (Request × Nat)) ([] : List (String × Nat)) _ s.nextId
    s.hasConnection s.crashed
  rw [hI.connTrue]
  exact invOn_clear s.pendingRequests s.activeRequests s.trace s.nextId s.crashed
    "RDP connection closed" (hI.connTrue ▸ hI)

theorem handleMessage_inv (s : ClientState) (m : Msg) (hI : Inv s) :
    Inv (handleMessage s m) := by
  by_cases h1 : m.fromActor.getD "" = ""
  · have hgoal : handleMessage s m = emitEv s (.rdpError m) := by
      unfold handleMessage
      rw [if_pos h1]
    rw [hgoal]
    exact hI
  · cases hget : mapGet s.activeRequests (m.fromActor.getD "") with
    | none =>
      have hgoal : handleMessage s m = emitEv s (.errorEv "Received unexpected message") := by
        unfold handleMessage
        rw [if_neg h1]
        simp only [hget]
      rw [hgoal]
      exact hI
    | some dd =>
      have hmem : (m.fromActor.getD "", dd) ∈ s.activeRequests := by
        unfold mapGet at hget
        cases hfind : s.activeRequests.find? (fun p => p.1 = m.fromActor.getD "") with
        | none => rw [hfind] at hget; simp at hget
        | some q =>
          rw [hfind] at hget
          simp at hget
          have hq1 := List.find?_some hfind
          simp at hq1
          have hqm := List.mem_of_find?_eq_some hfind
          have : q = (m.fromActor.getD "", dd) := by
            cases q
            simp at hq1 hget ⊢
            exact ⟨hq1, hget⟩
          rw [← this]
          exact hqm
      have hIt : InvOn s.pendingRequests s.activeRequests s.trace s.nextId true s.crashed :=
        hI.connTrue ▸ hI
      have hgoal : handleMessage s m
          = (flushPendingRequests (if m.error then
              settleEv { s with activeRequests := mapDelete s.activeRequests (m.fromActor.getD "") }
                dd false "RDP error reply"
            else
              settleEv { s with activeRequests := mapDelete s.activeRequests (m.fromActor.getD "") }
                dd true "")).1 := by
        unfold handleMessage
        rw [if_neg h1]
        simp only [hget]
      rw [hgoal]
      by_cases herr : m.error
      · rw [if_pos herr]
        have hstep := invOn_resolve_step s.pendingRequests s.activeRequests s.trace s.nextId
          s.crashed (m.fromActor.getD "") dd hIt hmem false "RDP error reply"
        have hInv2 : Inv (settleEv
            { s with activeRequests := mapDelete s.activeRequests (m.fromActor.getD "") }
            dd false "RDP error reply") := by
          show InvOn s.pendingRequests (mapDelete s.activeRequests (m.fromActor.getD ""))
            (s.trace ++ [TraceEv.settle dd false "RDP error reply"]) s.nextId
            s.hasConnection s.crashed
          rw [hI.connTrue]
          exact hstep
        obtain ⟨s3, heq, hI3, _⟩ := flushPendingRequests_inv _ hInv2
        rw [heq]
        exact hI3
      · rw [if_neg herr]
        have hstep := invOn_resolve_step s.pendingRequests s.activeRequests s.trace s.nextId
          s.crashed (m.fromActor.getD "") dd hIt hmem true ""
        have hInv2 : Inv (settleEv
            { s with activeRequests := mapDelete s.activeRequests (m.fromActor.getD "") }
            dd true "") := by
          show InvOn s.pendingRequests (mapDelete s.activeRequests (m.fromActor.getD ""))
            (s.trace ++ [TraceEv.settle dd true ""]) s.nextId
            s.hasConnection s.crashed
          rw [hI.connTrue]
          exact hstep
        obtain ⟨s3, heq, hI3, _⟩ := flushPendingRequests_inv _ hInv2
        rw [heq]
        exact hI3

theorem readMessage_inv (jd : List Nat → Option Msg) (s : ClientState) (hI : Inv s) :
    Inv (readMessage jd s).1 := by
  cases herr : (parseMessage jd s.incomingData).error with
  | none =>
    cases hpm : (parseMessage jd s.incomingData).parsedMessage with
    | none =>
      have hgoal : readMessage jd s
          = ({ s with incomingData := (parseMessage jd s.incomingData).remainingData },
             false) := by
        unfold readMessage
        simp only [herr, hpm]
      rw [hgoal]
      exact hI
    | some m =>
      have hgoal : readMessage jd s
          = (handleMessage
              { s with
                incomingData := (parseMessage jd s.incomingData).remainingData
                decoded := s.decoded ++ [m] } m, true) := by
        unfold readMessage
        simp only [herr, hpm]
      rw [hgoal]
      exact handleMessage_inv _ m hI
  | some e =>
    by_cases hfat : (parseMessage jd s.incomingData).fatal.getD false
    · have hgoal : readMessage jd s
          = (disconnect (emitEv
              { s with incomingData := (parseMessage jd s.incomingData).remainingData }
              (.errorEv ("Error parsing RDP packet: " ++ e))), false) := by
        unfold readMessage
        simp only [herr, hfat, if_true]
      rw [hgoal]
      exact disconnect_inv _ hI
    · have hfatf : (parseMessage jd s.incomingData).fatal.getD false = false := by
        simpa using hfat
      have hgoal : readMessage jd s
          = (emitEv
              { s with incomingData := (parseMessage jd s.incomingData).remainingData }
              (.errorEv ("Error parsing RDP packet: " ++ e)), true) := by
        unfold readMessage
        simp only [herr, hfatf, Bool.false_eq_true, if_false]
      rw [hgoal]
      exact hI

theorem readLoop_inv (jd : List Nat → Option Msg) (fuel : Nat) :
    ∀ s : ClientState, Inv s → Inv (readLoop jd fuel s) := by
  induction fuel with
  | zero => intro s hI; exact hI
  | succ n ih =>
    intro s hI
    unfold readLoop
    by_cases hc : (readMessage jd s).2
    · simp only [hc, if_true]
      exact ih _ (readMessage_inv jd s hI)
    · simp only [hc, Bool.false_eq_true, if_false]
      exact readMessage_inv jd s hI

theorem onData_inv (jd : List Nat → Option Msg) (s : ClientState) (fill : List Nat)
    (hI : Inv s) : Inv (onData jd s fill) := by
  unfold onData
  apply readLoop_inv
  exact hI

theorem stepEv_inv (jd : List Nat → Option Msg) (s : ClientState) (e : SockEv)
    (hI : Inv s) : Inv (stepEv jd s e) := by
  cases e with
  | connectEv =>
    simp only [stepEv]
    by_cases hl : s.listenersRemoved
    · rw [if_pos hl]; exact hI
    · rw [if_neg hl]
      show InvOn s.pendingRequests s.activeRequests
        (s.trace ++ [TraceEv.settle 0 true ""]) s.nextId s.hasConnection s.crashed
      rw [hI.connTrue]
      exact invOn_settle_zero _ _ _ _ _ true "" (hI.connTrue ▸ hI)
  | dataEv fill =>
    simp only [stepEv]
    by_cases hl : s.listenersRemoved
    · rw [if_pos hl]; exact hI
    · rw [if_neg hl]; exact onData_inv jd s fill hI
  | errorEv r =>
    simp only [stepEv]
    by_cases hl : s.listenersRemoved
    · rw [if_pos hl]; exact hI
    · rw [if_neg hl]
      show InvOn s.pendingRequests s.activeRequests
        (s.trace ++ [TraceEv.settle 0 false r]) s.nextId s.hasConnection s.crashed
      rw [hI.connTrue]
      exact invOn_settle_zero _ _ _ _ _ false r (hI.connTrue ▸ hI)
  | endEv =>
    simp only [stepEv]
    by_cases hl : s.listenersRemoved
    · rw [if_pos hl]; exact hI
    · rw [if_neg hl]; exact hI
  | timeoutEv =>
    simp only [stepEv]
    by_cases hl : s.listenersRemoved
    · rw [if_pos hl]; exact hI
    · rw [if_neg hl]; exact hI

theorem connInit_eq : connInit
    = { hasConnection := true, activeRequests := [("root", 0)] } := by
  unfold connInit expectReply
  rw [if_neg (by simp [mapHas])]
  rfl

theorem connInit_inv : Inv connInit := by
  rw [connInit_eq]
  show InvOn [] [("root", 0)] [] 1 true false
  refine {
    connTrue := rfl
    noCrash := rfl
    nextPos := le_refl 1
    activeNodup := by simp
    activeDidsNodup := by simp
    pendIncr := by simp
    pendLt := by simp
    activeLt := by intro q hq; simp at hq; rw [hq]; simp
    pendIssued := by simp
    pendUnwritten := by simp
    pendUnsettled := by simp
    pendActiveDisj := by simp
    activeRoot := by intro q hq h0; simp at hq; rw [hq]
    activeIssued := by intro q hq; simp at hq; rw [hq]; exact Or.inl ⟨rfl, rfl⟩
    activeUnsettled := by intro q hq; simp at hq; rw [hq]; exact Or.inl rfl
    issueBounds := by intro a d h; simp [issuedTo] at h
    issueFun := by intro a a2 d h; simp [issuedTo] at h
    issueMono := by simp [issueDids]
    writeIssued := by intro a d h; simp [writtenTo] at h
    writeOnce := by intro d; simp [writeCnt]
    settleOnce := by intro d h; simp [settleCnt]
    settleIssued := by intro d h hc; simp [settleCnt] at hc
    trich := by intro a d h; simp [issuedTo] at h
    ordOk := by
      intro T1 a d2 T2 heq
      exact absurd heq.symm (by simp) }

/-- Every state reachable from a fresh connection satisfies the client
invariant. -/
theorem reachable_inv (jd : List Nat → Option Msg) (s : ClientState)
    (h : Reachable jd s) : Inv s := by
  induction h with
  | init => exact connInit_inv
  | step hR hstep ih =>
    cases hstep with
    | sock e => exact stepEv_inv jd _ e ih
    | req p => exact request_inv _ p ih
    | disc => exact disconnect_inv _ ih

/-- C2: per-actor serialization.  In every reachable client state (1) at most
one request per actor is in flight — written to the socket but not yet
settled: any two unsettled written requests of the same actor coincide;
(2) deferred ids are allocated in issue order (the issued dids are strictly
increasing along the trace), so for back-to-back requests "issued earlier"
means "smaller did"; and (3) the trace satisfies `OrderOk`: whenever request
`d2` is written to actor `a`, every same-actor request issued earlier has
already been settled (its reply received, resolving or rejecting it) before
that write, and is never written afterwards — writes to an actor happen in
issue order, the second never before the first reply. -/
theorem claim_C2_per_actor_serialization (jd : List Nat → Option Msg)
    (s : ClientState) (hR : Reachable jd s) :
    (∀ a d1 d2,
        writtenTo s.trace a d1 → ¬ settledIn s.trace d1 →
        writtenTo s.trace a d2 → ¬ settledIn s.trace d2 → d1 = d2)
    ∧ (issueDids s.trace).Pairwise (· < ·)
    ∧ OrderOk s.trace := by
  have hI : Inv s := reachable_inv jd s hR
  refine ⟨?_, hI.issueMono, hI.ordOk⟩
  intro a d1 d2 hw1 hs1 hw2 hs2
  have key : ∀ d, writtenTo s.trace a d → ¬ settledIn s.trace d →
      (a, d) ∈ s.activeRequests := by
    intro d hw hs
    have hiss : issuedTo s.trace a d := hI.writeIssued a d hw
    have hcnt0 : settleCnt s.trace d = 0 := by
      by_contra h
      exact hs (settleCnt_settledIn _ _ (Nat.one_le_iff_ne_zero.mpr h))
    rcases hI.trich a d hiss with hpend | hact | hone
    · obtain ⟨p, hp, hpd⟩ := hpend
      have hup := hI.pendUnwritten p hp
      have hwc := writtenTo_writeCnt s.trace a d hw
      rw [hpd] at hup
      omega
    · exact hact
    · omega
  have h1 := key d1 hw1 hs1
  have h2 := key d2 hw2 hs2
  have heq := List.inj_on_of_nodup_map hI.activeNodup h1 h2 rfl
  simpa using congrArg Prod.snd heq

theorem claim_C2_witness :
    (∀ a d1 d2,
        writtenTo ((request (request connInit
            (RequestProps.ofObject { toActor := some "a", rtype := some "t" })).1
            (RequestProps.ofObject { toActor := some "a", rtype := some "u" })).1).trace a d1 →
        ¬ settledIn ((request (request connInit
            (RequestProps.ofObject { toActor := some "a", rtype := some "t" })).1
            (RequestProps.ofObject { toActor := some "a", rtype := some "u" })).1).trace d1 →
        writtenTo ((request (request connInit
            (RequestProps.ofObject { toActor := some "a", rtype := some "t" })).1
            (RequestProps.ofObject { toActor := some "a", rtype := some "u" })).1).trace a d2 →
        ¬ settledIn ((request (request connInit
            (RequestProps.ofObject { toActor := some "a", rtype := some "t" })).1
            (RequestProps.ofObject { toActor := some "a", rtype := some "u" })).1).trace d2 →
        d1 = d2)
    ∧ (issueDids ((request (request connInit
        (RequestProps.ofObject { toActor := some "a", rtype := some "t" })).1
        (RequestProps.ofObject { toActor := some "a", rtype := some "u" })).1).trace).Pairwise (· < ·)
    ∧ OrderOk ((request (request connInit
        (RequestProps.ofObject { toActor := some "a", rtype := some "t" })).1
        (RequestProps.ofObject { toActor := some "a", rtype := some "u" })).1).trace :=
  claim_C2_per_actor_serialization (fun _ => none) _
    (Reachable.step (Reachable.step Reachable.init
      (Step.req connInit (RequestProps.ofObject { toActor := some "a", rtype := some "t" })))
      (Step.req _ (RequestProps.ofObject { toActor := some "a", rtype := some "u" })))

/-- C6: `disconnect()` clears both internal queues, appends exactly one
reject — with the "RDP connection closed" error — for each pending and each
in-flight request; every real request (deferred id ≥ 1, excluding only the
internal root-greeting deferred 0, whose promise may already have resolved)
that was pending or in flight ends settled exactly once over the whole
trace; the call never throws (`crashed` stays false); and a second
`disconnect()` is the identity — it neither rejects anything again nor
throws. -/
theorem claim_C6_disconnect (jd : List Nat → Option Msg) (s : ClientState)
    (hR : Reachable jd s) :
    (disconnect s).pendingRequests = []
    ∧ (disconnect s).activeRequests = []
    ∧ (disconnect s).trace = s.trace
        ++ s.activeRequests.map (fun q => TraceEv.settle q.2 false "RDP connection closed")
        ++ s.pendingRequests.map (fun q => TraceEv.settle q.2 false "RDP connection closed")
    ∧ (∀ d, 1 ≤ d →
        ((∃ p ∈ s.pendingRequests, p.2 = d) ∨ (∃ q ∈ s.activeRequests, q.2 = d)) →
        settleCnt (disconnect s).trace d = 1)
    ∧ (disconnect s).crashed = false
    ∧ disconnect (disconnect s) = disconnect s := by
  have hI : Inv s := reachable_inv jd s hR
  have hconn : s.hasConnection = true := hI.connTrue
  have hd := disconnect_eq s hconn
  have hpendNodup : (s.pendingRequests.map Prod.snd).Nodup :=
    hI.pendIncr.imp (fun h => ne_of_lt h)
  refine ⟨by rw [hd], by rw [hd], by rw [hd], ?_, ?_, ?_⟩
  · intro d hd1 hout
    have htr : (disconnect s).trace = s.trace
        ++ s.activeRequests.map (fun q => TraceEv.settle q.2 false "RDP connection closed")
        ++ s.pendingRequests.map (fun q => TraceEv.settle q.2 false "RDP connection closed") := by
      rw [hd]
    rw [htr, settleCnt_append, settleCnt_append, settleCnt_settles, settleCnt_settles]
    rcases hout with ⟨p, hp, hpd⟩ | ⟨q, hq, hqd⟩
    · have h0 : settleCnt s.trace d = 0 := hpd ▸ hI.pendUnsettled p hp
      have hA : List.countP (fun q => decide (q.2 = d)) s.activeRequests = 0 := by
        apply cntD_zero
        intro q hq
        have := hI.pendActiveDisj p hp q hq
        rw [hpd] at this
        exact fun h => this h.symm
      have hP : List.countP (fun q => decide (q.2 = d)) s.pendingRequests = 1 :=
        cntD_one s.pendingRequests d p hp hpd hpendNodup
      omega
    · have h0 : settleCnt s.trace d = 0 := by
        rcases hI.activeUnsettled q hq with h | h
        · rw [h] at hqd; omega
        · exact hqd ▸ h
      have hA : List.countP (fun q => decide (q.2 = d)) s.activeRequests = 1 :=
        cntD_one s.activeRequests d q hq hqd hI.activeDidsNodup
      have hP : List.countP (fun q => decide (q.2 = d)) s.pendingRequests = 0 := by
        apply cntD_zero
        intro p hp
        have := hI.pendActiveDisj p hp q hq
        rw [hqd] at this
        exact this
      omega
  · rw [hd]
    exact hI.noCrash
  · have hX : (disconnect s).hasConnection = true := by
      rw [hd]
      exact hconn
    rw [disconnect_eq (disconnect s) hX, hd]
    simp

theorem claim_C6_witness :
    ((disconnect ((request (request connInit
        (RequestProps.ofObject { toActor := some "b", rtype := some "t" })).1
        (RequestProps.ofObject { toActor := some "b", rtype := some "u" })).1)).pendingRequests = []
    ∧ (disconnect ((request (request connInit
        (RequestProps.ofObject { toActor := some "b", rtype := some "t" })).1
        (RequestProps.ofObject { toActor := some "b", rtype := some "u" })).1)).activeRequests = []
    ∧ (disconnect ((request (request connInit
        (RequestProps.ofObject { toActor := some "b", rtype := some "t" })).1
        (RequestProps.ofObject { toActor := some "b", rtype := some "u" })).1)).trace
      = ((request (request connInit
          (RequestProps.ofObject { toActor := some "b", rtype := some "t" })).1
          (RequestProps.ofObject { toActor := some "b", rtype := some "u" })).1).trace
        ++ ((request (request connInit
            (RequestProps.ofObject { toActor := some "b", rtype := some "t" })).1
            (RequestProps.ofObject { toActor := some "b", rtype := some "u" })).1).activeRequests.map
            (fun q => TraceEv.settle q.2 false "RDP connection closed")
        ++ ((request (request connInit
            (RequestProps.ofObject { toActor := some "b", rtype := some "t" })).1
            (RequestProps.ofObject { toActor := some "b", rtype := some "u" })).1).pendingRequests.map
            (fun q => TraceEv.settle q.2 false "RDP connection closed")
    ∧ (∀ d, 1 ≤ d →
        ((∃ p ∈ ((request (request connInit
            (RequestProps.ofObject { toActor := some "b", rtype := some "t" })).1
            (RequestProps.ofObject { toActor := some "b", rtype := some "u" })).1).pendingRequests,
            p.2 = d)
          ∨ (∃ q ∈ ((request (request connInit
            (RequestProps.ofObject { toActor := some "b", rtype := some "t" })).1
            (RequestProps.ofObject { toActor := some "b", rtype := some "u" })).1).activeRequests,
            q.2 = d)) →
        settleCnt (disconnect ((request (request connInit
            (RequestProps.ofObject { toActor := some "b", rtype := some "t" })).1
            (RequestProps.ofObject { toActor := some "b", rtype := some "u" })).1)).trace d = 1)
    ∧ (disconnect ((request (request connInit
        (RequestProps.ofObject { toActor := some "b", rtype := some "t" })).1
        (RequestProps.ofObject { toActor := some "b", rtype := some "u" })).1)).crashed = false
    ∧ disconnect (disconnect ((request (request connInit
        (RequestProps.ofObject { toActor := some "b", rtype := some "t" })).1
        (RequestProps.ofObject { toActor := some "b", rtype := some "u" })).1))
      = disconnect ((request (request connInit
        (RequestProps.ofObject { toActor := some "b", rtype := some "t" })).1
        (RequestProps.ofObject { toActor := some "b", rtype := some "u" })).1)) :=
  claim_C6_disconnect (fun _ => none) _
    (Reachable.step (Reachable.step Reachable.init
      (Step.req connInit (RequestProps.ofObject { toActor := some "b", rtype := some "t" })))
      (Step.req _ (RequestProps.ofObject { toActor := some "b", rtype := some "u" })))

/-- C1 (counterexample): the promise returned by `connect` resolves as soon
as the socket finishes opening.  Delivering only the `net.createConnection`
connect callback to a fresh client — no bytes received, nothing decoded, in
particular no "root" greeting — already settles deferred 0 (the promise
`connect` awaits) as resolved, refuting the claim that it never resolves
merely because the underlying socket finished opening: the source passes
`resolve` directly as the `net.createConnection` callback. -/
theorem claim_C1_counterexample :
    (stepEv (fun _ => none) connInit SockEv.connectEv).trace = [TraceEv.settle 0 true ""]
    ∧ (stepEv (fun _ => none) connInit SockEv.connectEv).decoded = []
    ∧ (stepEv (fun _ => none) connInit SockEv.connectEv).incomingData = [] := by
  refine ⟨rfl, rfl, rfl⟩

/-- C1 (amended): on any connected client that still has its socket
listeners, the socket-open event alone resolves deferred 0 — the promise
`connect` awaits — immediately and unconditionally: the state change is
exactly `settleEv s 0 true ""`, no message is decoded, and the trace grows by
that single resolve.  (The "root" greeting also holds `resolve`/`reject` via
`expectReply("root")`, so a socket error before the greeting rejects the
promise; but resolution does not wait for the greeting.) -/
theorem claim_C1_amended (jd : List Nat → Option Msg) (s : ClientState)
    (h : s.listenersRemoved = false) :
    stepEv jd s SockEv.connectEv = settleEv s 0 true ""
    ∧ (stepEv jd s SockEv.connectEv).decoded = s.decoded
    ∧ (stepEv jd s SockEv.connectEv).trace = s.trace ++ [TraceEv.settle 0 true ""] := by
  have hg : stepEv jd s SockEv.connectEv = settleEv s 0 true "" := by
    simp only [stepEv, h, Bool.false_eq_true, if_false]
  exact ⟨hg, by rw [hg]; rfl, by rw [hg]; rfl⟩

theorem claim_C1_witness :
    connInit.listenersRemoved = false
    ∧ (stepEv (fun _ => none) connInit SockEv.connectEv = settleEv connInit 0 true ""
      ∧ (stepEv (fun _ => none) connInit SockEv.connectEv).decoded = connInit.decoded
      ∧ (stepEv (fun _ => none) connInit SockEv.connectEv).trace
          = connInit.trace ++ [TraceEv.settle 0 true ""]) :=
  ⟨rfl, claim_C1_amended (fun _ => none) connInit rfl⟩

end Scaffold
